import Mathlib

/-!
Shallow embedding of the UC-Organisations data-access layer
(`src/database/base/query_builder.py`, `src/database/base/repository.py`,
`src/database/migrations/runner.py`, `src/database/models/organization.py`,
`src/database/utils.py`, `src/database/connection.py`) together with
theorems settling the specification claims about it.
-/

/-- Scalar Python values as they flow through the query builder and the
rows: `None`, `int`, `str`, `bool`. -/
inductive Val where
  | vnull
  | vint (i : Int)
  | vstr (s : String)
  | vbool (b : Bool)
deriving DecidableEq, Repr

/-- A value stored in a WHERE/HAVING clause: either a scalar or a list of
scalars (what `where_in` stores).  One nesting level covers every value
the repository layer passes to the builder. -/
inductive PyVal where
  | prim (v : Val)
  | plist (vs : List Val)
deriving DecidableEq, Repr

/-- Python `sep.join(xs)`: elements of `xs` interleaved with `sep`. -/
def pyJoin (sep : String) : List String → String
  | [] => ""
  | [x] => x
  | x :: y :: xs => x ++ sep ++ pyJoin sep (y :: xs)

/-- Number of `'%'` characters in a string.  Placeholders are exactly the
two-character sequences `%s`, so in statement text assembled from
`'%'`-free identifiers this counts the placeholders. -/
def percentCount (s : String) : Nat := s.data.countP (fun c => c = '%')

/-- SQL join types (`JoinType` enum in `query_builder.py`). -/
inductive JoinType where
  | inner
  | left
  | right
  | full
deriving DecidableEq, Repr

/-- The `value` attribute of the Python `JoinType` enum members. -/
def JoinType.value : JoinType → String
  | .inner => "INNER JOIN"
  | .left => "LEFT JOIN"
  | .right => "RIGHT JOIN"
  | .full => "FULL OUTER JOIN"

/-- One entry of `QueryBuilder._joins`: dict with keys `table`, `on`, `type`. -/
structure Join where
  table : String
  onClause : String
  type : JoinType
deriving DecidableEq, Repr

/-- One entry of `QueryBuilder._where_clauses` (also used for
`_having_clauses`): dict with keys `field`, `operator`, `value`,
`connector`. -/
structure WhereClause where
  field : String
  op : String
  value : PyVal
  connector : String
deriving DecidableEq, Repr

/-- State of a `QueryBuilder` instance (`query_builder.py`, `__init__`). -/
structure QueryBuilder where
  table : String
  selectFields : List String := ["*"]
  joins : List Join := []
  whereClauses : List WhereClause := []
  orderByClauses : List (String × String) := []
  groupByFields : List String := []
  havingClauses : List WhereClause := []
  limitValue : Option Int := none
  offsetValue : Option Int := none
deriving DecidableEq, Repr

/-- `QueryBuilder(table)` constructor. -/
def QueryBuilder.init (table : String) : QueryBuilder := { table := table }

/-- `QueryBuilder.select(fields)`. -/
def QueryBuilder.select (qb : QueryBuilder) (fields : List String) : QueryBuilder :=
  { qb with selectFields := fields }

/-- `QueryBuilder.join(table, on_clause, join_type)`. -/
def QueryBuilder.join (qb : QueryBuilder) (table onClause : String)
    (joinType : JoinType := JoinType.inner) : QueryBuilder :=
  { qb with joins := qb.joins ++ [⟨table, onClause, joinType⟩] }

/-- `QueryBuilder.where(field, operator, value)` (named `where_` because
`where` is reserved in Lean). -/
def QueryBuilder.where_ (qb : QueryBuilder) (field op : String) (value : PyVal) : QueryBuilder :=
  { qb with whereClauses := qb.whereClauses ++ [⟨field, op, value, "AND"⟩] }

/-- `QueryBuilder.where_or(field, operator, value)`. -/
def QueryBuilder.where_or (qb : QueryBuilder) (field op : String) (value : PyVal) : QueryBuilder :=
  { qb with whereClauses := qb.whereClauses ++ [⟨field, op, value, "OR"⟩] }

/-- `QueryBuilder.where_in(field, values)`. -/
def QueryBuilder.where_in (qb : QueryBuilder) (field : String) (values : List Val) : QueryBuilder :=
  { qb with whereClauses := qb.whereClauses ++ [⟨field, "IN", PyVal.plist values, "AND"⟩] }

/-- `QueryBuilder.where_null(field, is_null)`. -/
def QueryBuilder.where_null (qb : QueryBuilder) (field : String) (isNull : Bool := true) :
    QueryBuilder :=
  { qb with whereClauses :=
      qb.whereClauses ++
        [⟨field, if isNull then "IS NULL" else "IS NOT NULL", PyVal.prim Val.vnull, "AND"⟩] }

/-- `QueryBuilder.order_by(field, direction)`. -/
def QueryBuilder.order_by (qb : QueryBuilder) (field : String) (direction : String := "ASC") :
    QueryBuilder :=
  { qb with orderByClauses := qb.orderByClauses ++ [(field, direction.toUpper)] }

/-- `QueryBuilder.group_by(fields)`. -/
def QueryBuilder.group_by (qb : QueryBuilder) (fields : List String) : QueryBuilder :=
  { qb with groupByFields := fields }

/-- `QueryBuilder.having(field, operator, value)`. -/
def QueryBuilder.having (qb : QueryBuilder) (field op : String) (value : PyVal) : QueryBuilder :=
  { qb with havingClauses := qb.havingClauses ++ [⟨field, op, value, "AND"⟩] }

/-- `QueryBuilder.limit(limit)`. -/
def QueryBuilder.limit (qb : QueryBuilder) (n : Int) : QueryBuilder :=
  { qb with limitValue := some n }

/-- `QueryBuilder.offset(offset)`. -/
def QueryBuilder.offset (qb : QueryBuilder) (n : Int) : QueryBuilder :=
  { qb with offsetValue := some n }

/-- Python iteration over a clause value in the `IN` branch of `build`:
`len(value)` / `params.extend(value)` succeed for a `list` (its elements)
and for a `str` (its characters as one-character strings) and raise
`TypeError` otherwise, which the embedding renders as `none`. -/
def pySeq : PyVal → Option (List Val)
  | .plist vs => some vs
  | .prim (.vstr s) => some (s.data.map (fun c => Val.vstr ⟨[c]⟩))
  | _ => none

/-- Parameters a single WHERE clause contributes in `build` (the `IN`
branch extends by the elements, the NULL branch adds nothing, the
default branch appends the value). -/
def clauseParams (c : WhereClause) : List PyVal :=
  if c.op = "IN" then ((pySeq c.value).getD []).map PyVal.prim
  else if c.op = "IS NULL" ∨ c.op = "IS NOT NULL" then []
  else [c.value]

/-- The WHERE-clause loop of `QueryBuilder.build`: produces the textual
parts and the parameters, threading "is this the first clause" for the
connector.  `none` models the `TypeError` Python raises when an `IN`
clause's value is not iterable. -/
def buildWhereParts : Bool → List WhereClause → Option (List String × List PyVal)
  | _, [] => some ([], [])
  | isFirst, c :: rest =>
    let connector := if isFirst then "" else c.connector
    let part? : Option (String × List PyVal) :=
      if c.op = "IN" then
        match pySeq c.value with
        | some vs =>
          let placeholders := pyJoin ", " (List.replicate vs.length "%s")
          some (connector ++ " " ++ c.field ++ " IN (" ++ placeholders ++ ")",
            vs.map PyVal.prim)
        | none => none
      else if c.op = "IS NULL" ∨ c.op = "IS NOT NULL" then
        some (connector ++ " " ++ c.field ++ " " ++ c.op, [])
      else
        some (connector ++ " " ++ c.field ++ " " ++ c.op ++ " %s", [c.value])
    match part?, buildWhereParts false rest with
    | some (s, ps), some (ss, pss) => some (s :: ss, ps ++ pss)
    | _, _ => none

/-- The HAVING-clause loop of `QueryBuilder.build`: every clause emits one
`%s` and appends its value. -/
def buildHavingParts : Bool → List WhereClause → List String × List PyVal
  | _, [] => ([], [])
  | isFirst, c :: rest =>
    let connector := if isFirst then "" else c.connector
    let (ss, ps) := buildHavingParts false rest
    ((connector ++ " " ++ c.field ++ " " ++ c.op ++ " %s") :: ss, c.value :: ps)

/-- The `parts` list that `QueryBuilder.build` joins with single spaces:
SELECT and FROM always, then JOINs, and the WHERE / GROUP BY / HAVING /
ORDER BY / LIMIT / OFFSET sections only when present.  Note that the
LIMIT and OFFSET values are rendered straight into the text
(`f"LIMIT {self._limit_value}"`), not as placeholders. -/
def assembleParts (qb : QueryBuilder) (whereParts havingParts : List String) : List String :=
  ["SELECT " ++ pyJoin ", " qb.selectFields, "FROM " ++ qb.table]
  ++ qb.joins.map (fun j => j.type.value ++ " " ++ j.table ++ " ON " ++ j.onClause)
  ++ (if qb.whereClauses = [] then [] else ["WHERE " ++ pyJoin " " whereParts])
  ++ (if qb.groupByFields = [] then [] else ["GROUP BY " ++ pyJoin ", " qb.groupByFields])
  ++ (if qb.havingClauses = [] then [] else ["HAVING " ++ pyJoin " " havingParts])
  ++ (if qb.orderByClauses = [] then []
      else ["ORDER BY " ++
        pyJoin ", " (qb.orderByClauses.map (fun fd => fd.1 ++ " " ++ fd.2))])
  ++ (match qb.limitValue with | none => [] | some n => ["LIMIT " ++ toString n])
  ++ (match qb.offsetValue with | none => [] | some n => ["OFFSET " ++ toString n])

/-- `QueryBuilder.build()`: assembles the statement parts and the
positional parameter list.  `none` models the `TypeError` raised when an
`IN` clause's value is not iterable. -/
def QueryBuilder.build (qb : QueryBuilder) : Option (String × List PyVal) :=
  match buildWhereParts true qb.whereClauses with
  | none => none
  | some (whereParts, whereParams) =>
    let (havingParts, havingParams) := buildHavingParts true qb.havingClauses
    some (pyJoin " " (assembleParts qb whereParts havingParts) ++ ";",
      whereParams ++ havingParams)

example : (QueryBuilder.init "organizations").build =
    some ("SELECT * FROM organizations;", []) := by decide

example : ((QueryBuilder.init "organizations").limit 7).build =
    some ("SELECT * FROM organizations LIMIT 7;", []) := by decide

example : ((QueryBuilder.init "t").where_in "id" [Val.vint 1, Val.vint 2]).build =
    some ("SELECT * FROM t WHERE  id IN (%s, %s);",
      [PyVal.prim (Val.vint 1), PyVal.prim (Val.vint 2)]) := by decide

example : ((QueryBuilder.init "t").where_in "id" []).build =
    some ("SELECT * FROM t WHERE  id IN ();", []) := by decide

example : ((QueryBuilder.init "t").where_null "x").build =
    some ("SELECT * FROM t WHERE  x IS NULL;", []) := by decide

example : ((QueryBuilder.init "t").where_ "f" "IN" (PyVal.prim (Val.vint 5))).build = none := by
  decide

theorem percentCount_append (a b : String) :
    percentCount (a ++ b) = percentCount a + percentCount b := by
  unfold percentCount
  rw [String.data_append, List.countP_append]

theorem percentCount_pyJoin (sep : String) (hsep : percentCount sep = 0) :
    ∀ l : List String, percentCount (pyJoin sep l) = (l.map percentCount).sum
  | [] => by simp [pyJoin, percentCount]
  | [x] => by simp [pyJoin]
  | x :: y :: xs => by
    have ih := percentCount_pyJoin sep hsep (y :: xs)
    simp [pyJoin, percentCount_append, hsep, ih]

theorem percentCount_pyJoin_zero (sep : String) (l : List String) (hsep : percentCount sep = 0)
    (h : ∀ x ∈ l, percentCount x = 0) : percentCount (pyJoin sep l) = 0 := by
  rw [percentCount_pyJoin sep hsep l]
  apply List.sum_eq_zero
  intro x hx
  obtain ⟨y, hy, rfl⟩ := List.mem_map.mp hx
  exact h y hy

theorem percentCount_placeholders (n : Nat) :
    percentCount (pyJoin ", " (List.replicate n "%s")) = n := by
  rw [percentCount_pyJoin ", " (by decide)]
  have h1 : percentCount "%s" = 1 := by decide
  simp [List.map_replicate, h1, List.sum_replicate, smul_eq_mul]

theorem digitChar_ne_percent (n : Nat) : ¬ Nat.digitChar n = '%' := by
  rcases lt_or_ge n 16 with h | h
  · interval_cases n <;> decide
  · have hv : Nat.digitChar n = '*' := by
      unfold Nat.digitChar
      rw [if_neg (by omega : ¬ n = 0), if_neg (by omega : ¬ n = 1),
        if_neg (by omega : ¬ n = 2), if_neg (by omega : ¬ n = 3),
        if_neg (by omega : ¬ n = 4), if_neg (by omega : ¬ n = 5),
        if_neg (by omega : ¬ n = 6), if_neg (by omega : ¬ n = 7),
        if_neg (by omega : ¬ n = 8), if_neg (by omega : ¬ n = 9),
        if_neg (by omega : ¬ n = 10), if_neg (by omega : ¬ n = 11),
        if_neg (by omega : ¬ n = 12), if_neg (by omega : ¬ n = 13),
        if_neg (by omega : ¬ n = 14), if_neg (by omega : ¬ n = 15)]
    rw [hv]
    decide

theorem toDigitsCore_ne_percent (b : Nat) :
    ∀ (fuel n : Nat) (ds : List Char), (∀ c ∈ ds, ¬ c = '%') →
      ∀ c ∈ Nat.toDigitsCore b fuel n ds, ¬ c = '%' := by
  intro fuel
  induction fuel with
  | zero => intro n ds h; simpa [Nat.toDigitsCore] using h
  | succ f ih =>
    intro n ds h
    by_cases h0 : n / b = 0
    · have hrw : Nat.toDigitsCore b (f + 1) n ds = Nat.digitChar (n % b) :: ds := by
        simp [Nat.toDigitsCore, h0]
      rw [hrw]
      intro c hc
      rcases List.mem_cons.mp hc with rfl | hmem
      · exact digitChar_ne_percent _
      · exact h c hmem
    · have hrw : Nat.toDigitsCore b (f + 1) n ds =
          Nat.toDigitsCore b f (n / b) (Nat.digitChar (n % b) :: ds) := by
        simp [Nat.toDigitsCore, h0]
      rw [hrw]
      apply ih
      intro c hc
      rcases List.mem_cons.mp hc with rfl | hmem
      · exact digitChar_ne_percent _
      · exact h c hmem

theorem percentCount_natRepr (n : Nat) : percentCount (Nat.repr n) = 0 := by
  unfold percentCount Nat.repr Nat.toDigits
  apply List.countP_eq_zero.mpr
  intro c hc
  have := toDigitsCore_ne_percent 10 (n + 1) n [] (by simp) c hc
  simpa using this

theorem percentCount_intToString (n : Int) : percentCount (toString n) = 0 := by
  show percentCount (Int.repr n) = 0
  cases n with
  | ofNat m => simpa [Int.repr] using percentCount_natRepr m
  | negSucc m =>
    show percentCount ("-" ++ Nat.repr (m + 1)) = 0
    rw [percentCount_append, percentCount_natRepr]
    decide

/-- Substring relation on statement text: `sub` occurs contiguously in `s`. -/
def HasSub (s sub : String) : Prop := ∃ pre post, s = pre ++ sub ++ post

theorem hasSub_self (s : String) : HasSub s s :=
  ⟨"", "", by simp⟩

theorem hasSub_appendL (a : String) {s x : String} (h : HasSub s x) : HasSub (a ++ s) x := by
  obtain ⟨pre, post, rfl⟩ := h
  exact ⟨a ++ pre, post, by simp [String.append_assoc]⟩

theorem hasSub_appendR (b : String) {s x : String} (h : HasSub s x) : HasSub (s ++ b) x := by
  obtain ⟨pre, post, rfl⟩ := h
  exact ⟨pre, post ++ b, by simp [String.append_assoc]⟩

theorem hasSub_trans {a b c : String} (h1 : HasSub a b) (h2 : HasSub b c) : HasSub a c := by
  obtain ⟨p1, q1, rfl⟩ := h1
  obtain ⟨p2, q2, rfl⟩ := h2
  exact ⟨p1 ++ p2, q2 ++ q1, by simp [String.append_assoc]⟩

theorem hasSub_pyJoin (sep : String) {x : String} :
    ∀ {l : List String}, x ∈ l → HasSub (pyJoin sep l) x
  | [], h => absurd h (List.not_mem_nil x)
  | [y], h => by
    rcases List.mem_singleton.mp h with rfl
    exact hasSub_self x
  | y :: z :: xs, h => by
    rcases List.mem_cons.mp h with rfl | hmem
    · exact hasSub_appendR _ (hasSub_appendR _ (hasSub_self x))
    · exact hasSub_appendL _ (hasSub_pyJoin sep hmem)


theorem pcSpace : percentCount " " = 0 := by decide

theorem pcInOpen : percentCount " IN (" = 0 := by decide

theorem pcClose : percentCount ")" = 0 := by decide

theorem pcPs : percentCount " %s" = 1 := by decide

/-- Parameters contributed by a WHERE-clause list, in clause order, with
`IN` lists expanded element-wise. -/
def whereParamsList : List WhereClause → List PyVal
  | [] => []
  | c :: rest => clauseParams c ++ whereParamsList rest

theorem whereParamsList_append (a b : List WhereClause) :
    whereParamsList (a ++ b) = whereParamsList a ++ whereParamsList b := by
  induction a with
  | nil => simp [whereParamsList]
  | cons c rest ih => simp [whereParamsList, ih]

/-- The identifier strings of a clause contain no `'%'` character (true of
every SQL identifier and operator the repository layer passes in). -/
def CleanClause (c : WhereClause) : Prop :=
  percentCount c.field = 0 ∧ percentCount c.op = 0 ∧ percentCount c.connector = 0

instance (c : WhereClause) : Decidable (CleanClause c) := by
  unfold CleanClause
  infer_instance

/-- All structural strings of the builder state (table, projected fields,
joins, clause identifiers, group/order fields) contain no `'%'`
character, so the only `'%'` characters of the built text are the
placeholders. -/
def CleanQB (qb : QueryBuilder) : Prop :=
  percentCount qb.table = 0 ∧
  (∀ f ∈ qb.selectFields, percentCount f = 0) ∧
  (∀ j ∈ qb.joins, percentCount j.table = 0 ∧ percentCount j.onClause = 0) ∧
  (∀ c ∈ qb.whereClauses, CleanClause c) ∧
  (∀ f ∈ qb.groupByFields, percentCount f = 0) ∧
  (∀ c ∈ qb.havingClauses, CleanClause c) ∧
  (∀ fd ∈ qb.orderByClauses, percentCount fd.1 = 0 ∧ percentCount fd.2 = 0)

instance (qb : QueryBuilder) : Decidable (CleanQB qb) := by
  unfold CleanQB
  infer_instance

/-- Every `IN`-operator clause of the builder state holds an iterable
value, so `build` raises no `TypeError`.  Every state produced by the
builder API's `where_in` satisfies this. -/
def InOK (qb : QueryBuilder) : Prop :=
  ∀ c ∈ qb.whereClauses, c.op = "IN" → (pySeq c.value).isSome

instance (qb : QueryBuilder) : Decidable (InOK qb) := by
  unfold InOK
  infer_instance

theorem bwp_some (cs : List WhereClause)
    (hin : ∀ c ∈ cs, c.op = "IN" → (pySeq c.value).isSome) :
    ∀ first : Bool, ∃ texts, buildWhereParts first cs = some (texts, whereParamsList cs) := by
  induction cs with
  | nil => intro first; exact ⟨[], rfl⟩
  | cons c rest ih =>
    intro first
    obtain ⟨ts, hts⟩ := ih (fun d hd => hin d (List.mem_cons_of_mem _ hd)) false
    by_cases hInOp : c.op = "IN"
    · obtain ⟨vs, hvs⟩ :=
        Option.isSome_iff_exists.mp (hin c (List.mem_cons_self _ _) hInOp)
      refine ⟨((if first then "" else c.connector) ++ " " ++ c.field ++ " IN (" ++
        pyJoin ", " (List.replicate vs.length "%s") ++ ")") :: ts, ?_⟩
      simp [buildWhereParts, hInOp, hvs, hts, whereParamsList, clauseParams]
    · by_cases hNull : c.op = "IS NULL" ∨ c.op = "IS NOT NULL"
      · refine ⟨((if first then "" else c.connector) ++ " " ++ c.field ++ " " ++ c.op) :: ts, ?_⟩
        simp [buildWhereParts, hInOp, hNull, hts, whereParamsList, clauseParams]
      · refine ⟨((if first then "" else c.connector) ++ " " ++ c.field ++ " " ++ c.op ++
          " %s") :: ts, ?_⟩
        simp [buildWhereParts, hInOp, hNull, hts, whereParamsList, clauseParams]

theorem bwp_spec (cs : List WhereClause)
    (hclean : ∀ c ∈ cs, CleanClause c)
    (hin : ∀ c ∈ cs, c.op = "IN" → (pySeq c.value).isSome) :
    ∀ first : Bool, ∃ texts, buildWhereParts first cs = some (texts, whereParamsList cs) ∧
      (texts.map percentCount).sum = (whereParamsList cs).length := by
  induction cs with
  | nil => intro first; exact ⟨[], rfl, rfl⟩
  | cons c rest ih =>
    intro first
    obtain ⟨ts, hts, hpc⟩ := ih (fun d hd => hclean d (List.mem_cons_of_mem _ hd))
      (fun d hd => hin d (List.mem_cons_of_mem _ hd)) false
    obtain ⟨hcf, hcop, hcconn⟩ := hclean c (List.mem_cons_self _ _)
    have hconn : percentCount (if first then "" else c.connector) = 0 := by
      cases first
      · simpa using hcconn
      · simp [percentCount]
    by_cases hInOp : c.op = "IN"
    · obtain ⟨vs, hvs⟩ :=
        Option.isSome_iff_exists.mp (hin c (List.mem_cons_self _ _) hInOp)
      have hcp : clauseParams c = vs.map PyVal.prim := by
        simp [clauseParams, hInOp, hvs]
      refine ⟨((if first then "" else c.connector) ++ " " ++ c.field ++ " IN (" ++
        pyJoin ", " (List.replicate vs.length "%s") ++ ")") :: ts, ?_, ?_⟩
      · simp [buildWhereParts, hInOp, hvs, hts, whereParamsList, hcp]
      · simp [whereParamsList, hcp, percentCount_append, hconn, hcf, pcSpace, pcInOpen,
          pcClose, percentCount_placeholders, hpc]
    · by_cases hNull : c.op = "IS NULL" ∨ c.op = "IS NOT NULL"
      · have hcp : clauseParams c = [] := by
          simp [clauseParams, hInOp, hNull]
        refine ⟨((if first then "" else c.connector) ++ " " ++ c.field ++ " " ++ c.op) :: ts,
          ?_, ?_⟩
        · simp [buildWhereParts, hInOp, hNull, hts, whereParamsList, hcp]
        · simp [whereParamsList, hcp, percentCount_append, hconn, hcf, hcop, pcSpace, hpc]
      · have hcp : clauseParams c = [c.value] := by
          simp [clauseParams, hInOp, hNull]
        refine ⟨((if first then "" else c.connector) ++ " " ++ c.field ++ " " ++ c.op ++
          " %s") :: ts, ?_, ?_⟩
        · simp [buildWhereParts, hInOp, hNull, hts, whereParamsList, hcp]
        · simp [whereParamsList, hcp, percentCount_append, hconn, hcf, hcop, pcSpace, pcPs, hpc]
          omega

theorem bhp_spec (cs : List WhereClause) :
    ∀ first : Bool, ∃ texts,
      buildHavingParts first cs = (texts, cs.map (fun c => c.value)) ∧
      ((∀ c ∈ cs, CleanClause c) → (texts.map percentCount).sum = cs.length) := by
  induction cs with
  | nil => intro first; exact ⟨[], rfl, fun _ => rfl⟩
  | cons c rest ih =>
    intro first
    obtain ⟨ts, hts, hpc⟩ := ih false
    refine ⟨((if first then "" else c.connector) ++ " " ++ c.field ++ " " ++ c.op ++
      " %s") :: ts, ?_, ?_⟩
    · simp [buildHavingParts, hts]
    · intro hclean
      obtain ⟨hcf, hcop, hcconn⟩ := hclean c (List.mem_cons_self _ _)
      have hconn : percentCount (if first then "" else c.connector) = 0 := by
        cases first
        · simpa using hcconn
        · simp [percentCount]
      simp [percentCount_append, hconn, hcf, hcop, pcSpace, pcPs,
        hpc (fun d hd => hclean d (List.mem_cons_of_mem _ hd))]
      omega

theorem pcSelectKw : percentCount "SELECT " = 0 := by decide

theorem pcFromKw : percentCount "FROM " = 0 := by decide

theorem pcWhereKw : percentCount "WHERE " = 0 := by decide

theorem pcGroupKw : percentCount "GROUP BY " = 0 := by decide

theorem pcHavingKw : percentCount "HAVING " = 0 := by decide

theorem pcOrderKw : percentCount "ORDER BY " = 0 := by decide

theorem pcLimitKw : percentCount "LIMIT " = 0 := by decide

theorem pcOffsetKw : percentCount "OFFSET " = 0 := by decide

theorem pcSemi : percentCount ";" = 0 := by decide

theorem pcOnKw : percentCount " ON " = 0 := by decide

theorem pcJoinTypeValue (t : JoinType) : percentCount t.value = 0 := by
  cases t <;> decide

theorem build_eq (qb : QueryBuilder) {wts hts : List String} {wps hps : List PyVal}
    (hbw : buildWhereParts true qb.whereClauses = some (wts, wps))
    (hbh : buildHavingParts true qb.havingClauses = (hts, hps)) :
    qb.build = some (pyJoin " " (assembleParts qb wts hts) ++ ";", wps ++ hps) := by
  simp only [QueryBuilder.build, hbw, hbh]

/-- Central parameterization lemma: for a builder state whose structural
strings are `'%'`-free and whose `IN` clauses hold iterable values,
`build` returns statement text and parameters such that the number of
`'%'` characters (= placeholders) equals the parameter count, and the
parameters are the WHERE-clause values in clause order followed by the
HAVING-clause values in clause order. -/
theorem build_spec (qb : QueryBuilder) (hclean : CleanQB qb) (hin : InOK qb) :
    ∃ sql, qb.build = some (sql,
        whereParamsList qb.whereClauses ++ qb.havingClauses.map (fun c => c.value)) ∧
      percentCount sql =
        (whereParamsList qb.whereClauses ++
          qb.havingClauses.map (fun c => c.value)).length := by
  obtain ⟨hct, hcs, hcj, hcw, hcg, hch, hco⟩ := hclean
  obtain ⟨wts, hbw, hwsum⟩ := bwp_spec qb.whereClauses hcw hin true
  obtain ⟨hts, hbh, hhsum0⟩ := bhp_spec qb.havingClauses true
  have hhsum := hhsum0 hch
  refine ⟨pyJoin " " (assembleParts qb wts hts) ++ ";", build_eq qb hbw hbh, ?_⟩
  rw [percentCount_append, percentCount_pyJoin " " (by decide), pcSemi]
  have h1 : ((["SELECT " ++ pyJoin ", " qb.selectFields,
      "FROM " ++ qb.table] : List String).map percentCount).sum = 0 := by
    have e1 : percentCount ("SELECT " ++ pyJoin ", " qb.selectFields) = 0 := by
      rw [percentCount_append, percentCount_pyJoin_zero ", " qb.selectFields (by decide) hcs,
        pcSelectKw]
    have e2 : percentCount ("FROM " ++ qb.table) = 0 := by
      rw [percentCount_append, hct, pcFromKw]
    simp [e1, e2]
  have hJ : ((qb.joins.map
      (fun j => j.type.value ++ " " ++ j.table ++ " ON " ++ j.onClause)).map
        percentCount).sum = 0 := by
    apply List.sum_eq_zero
    intro x hx
    rw [List.map_map] at hx
    obtain ⟨j, hj, rfl⟩ := List.mem_map.mp hx
    obtain ⟨hjt, hjo⟩ := hcj j hj
    simp [Function.comp, percentCount_append, hjt, hjo, pcSpace, pcOnKw, pcJoinTypeValue]
  have hW : (((if qb.whereClauses = [] then [] else
      ["WHERE " ++ pyJoin " " wts]) : List String).map percentCount).sum =
      (whereParamsList qb.whereClauses).length := by
    by_cases hwe : qb.whereClauses = []
    · simp [hwe, whereParamsList]
    · simp [hwe, percentCount_append, pcWhereKw, percentCount_pyJoin " " (by decide), hwsum]
  have hG : (((if qb.groupByFields = [] then [] else
      ["GROUP BY " ++ pyJoin ", " qb.groupByFields]) : List String).map percentCount).sum
      = 0 := by
    by_cases hge : qb.groupByFields = []
    · simp [hge]
    · simp [hge, percentCount_append, pcGroupKw,
        percentCount_pyJoin_zero ", " qb.groupByFields (by decide) hcg]
  have hH : (((if qb.havingClauses = [] then [] else
      ["HAVING " ++ pyJoin " " hts]) : List String).map percentCount).sum =
      qb.havingClauses.length := by
    by_cases hhe : qb.havingClauses = []
    · simp [hhe]
    · simp [hhe, percentCount_append, pcHavingKw, percentCount_pyJoin " " (by decide), hhsum]
  have hO : (((if qb.orderByClauses = [] then [] else
      ["ORDER BY " ++ pyJoin ", " (qb.orderByClauses.map
        (fun fd => fd.1 ++ " " ++ fd.2))]) : List String).map percentCount).sum = 0 := by
    by_cases hoe : qb.orderByClauses = []
    · simp [hoe]
    · have hz : percentCount
          (pyJoin ", " (qb.orderByClauses.map (fun fd => fd.1 ++ " " ++ fd.2))) = 0 := by
        apply percentCount_pyJoin_zero ", " _ (by decide)
        intro x hx
        obtain ⟨fd, hfd, rfl⟩ := List.mem_map.mp hx
        obtain ⟨h1, h2⟩ := hco fd hfd
        simp [percentCount_append, h1, h2, pcSpace]
      simp [hoe, percentCount_append, pcOrderKw, hz]
  have hL : (((match qb.limitValue with
      | none => []
      | some n => ["LIMIT " ++ toString n]) : List String).map percentCount).sum = 0 := by
    cases qb.limitValue with
    | none => rfl
    | some n => simp [percentCount_append, pcLimitKw, percentCount_intToString]
  have hOf : (((match qb.offsetValue with
      | none => []
      | some n => ["OFFSET " ++ toString n]) : List String).map percentCount).sum = 0 := by
    cases qb.offsetValue with
    | none => rfl
    | some n => simp [percentCount_append, pcOffsetKw, percentCount_intToString]
  unfold assembleParts
  rw [List.map_append, List.sum_append, List.map_append, List.sum_append,
    List.map_append, List.sum_append, List.map_append, List.sum_append,
    List.map_append, List.sum_append, List.map_append, List.sum_append,
    List.map_append, List.sum_append]
  rw [h1, hJ, hW, hG, hH, hO, hL, hOf]
  simp [List.length_append]

theorem bwp_snoc_in (f : String) (vs : List Val) (cs : List WhereClause)
    (hin : ∀ c ∈ cs, c.op = "IN" → (pySeq c.value).isSome) :
    ∀ first : Bool, ∃ ts conn,
      buildWhereParts first cs = some (ts, whereParamsList cs) ∧
      buildWhereParts first (cs ++ [⟨f, "IN", PyVal.plist vs, "AND"⟩]) =
        some (ts ++ [conn ++ " " ++ f ++ " IN (" ++
          pyJoin ", " (List.replicate vs.length "%s") ++ ")"],
          whereParamsList cs ++ vs.map PyVal.prim) := by
  induction cs with
  | nil =>
    intro first
    refine ⟨[], if first then "" else "AND", rfl, ?_⟩
    simp [buildWhereParts, pySeq, whereParamsList]
  | cons c rest ih =>
    intro first
    obtain ⟨ts, conn, hts, htsx⟩ := ih (fun d hd => hin d (List.mem_cons_of_mem _ hd)) false
    by_cases hInOp : c.op = "IN"
    · obtain ⟨ws, hws⟩ :=
        Option.isSome_iff_exists.mp (hin c (List.mem_cons_self _ _) hInOp)
      refine ⟨((if first then "" else c.connector) ++ " " ++ c.field ++ " IN (" ++
        pyJoin ", " (List.replicate ws.length "%s") ++ ")") :: ts, conn, ?_, ?_⟩
      · simp [buildWhereParts, hInOp, hws, hts, whereParamsList, clauseParams]
      · simp [buildWhereParts, hInOp, hws, htsx, whereParamsList, clauseParams]
    · by_cases hNull : c.op = "IS NULL" ∨ c.op = "IS NOT NULL"
      · refine ⟨((if first then "" else c.connector) ++ " " ++ c.field ++ " " ++ c.op) :: ts,
          conn, ?_, ?_⟩
        · simp [buildWhereParts, hInOp, hNull, hts, whereParamsList, clauseParams]
        · simp [buildWhereParts, hInOp, hNull, htsx, whereParamsList, clauseParams]
      · refine ⟨((if first then "" else c.connector) ++ " " ++ c.field ++ " " ++ c.op ++
          " %s") :: ts, conn, ?_, ?_⟩
        · simp [buildWhereParts, hInOp, hNull, hts, whereParamsList, clauseParams]
        · simp [buildWhereParts, hInOp, hNull, htsx, whereParamsList, clauseParams]

theorem mem_assembleParts_whereSec (qb : QueryBuilder) (wts hts : List String)
    (hne : ¬ qb.whereClauses = []) :
    ("WHERE " ++ pyJoin " " wts) ∈ assembleParts qb wts hts := by
  unfold assembleParts
  rw [if_neg hne]
  simp

theorem cleanQB_where_in (qb : QueryBuilder) (hclean : CleanQB qb) (f : String)
    (vs : List Val) (hf : percentCount f = 0) : CleanQB (qb.where_in f vs) := by
  obtain ⟨hct, hcs, hcj, hcw, hcg, hch, hco⟩ := hclean
  refine ⟨hct, hcs, hcj, ?_, hcg, hch, hco⟩
  intro c hc
  rcases List.mem_append.mp hc with hmem | hmem
  · exact hcw c hmem
  · rcases List.mem_singleton.mp hmem with rfl
    exact ⟨hf, (by decide : percentCount "IN" = 0), (by decide : percentCount "AND" = 0)⟩

theorem inOK_where_in (qb : QueryBuilder) (hin : InOK qb) (f : String) (vs : List Val) :
    InOK (qb.where_in f vs) := by
  intro c hc
  rcases List.mem_append.mp hc with hmem | hmem
  · exact hin c hmem
  · rcases List.mem_singleton.mp hmem with rfl
    intro _
    rfl

theorem cleanQB_where_null (qb : QueryBuilder) (hclean : CleanQB qb) (f : String)
    (b : Bool) (hf : percentCount f = 0) : CleanQB (qb.where_null f b) := by
  obtain ⟨hct, hcs, hcj, hcw, hcg, hch, hco⟩ := hclean
  refine ⟨hct, hcs, hcj, ?_, hcg, hch, hco⟩
  intro c hc
  rcases List.mem_append.mp hc with hmem | hmem
  · exact hcw c hmem
  · rcases List.mem_singleton.mp hmem with rfl
    refine ⟨hf, ?_, (by decide : percentCount "AND" = 0)⟩
    cases b
    · exact (by decide : percentCount "IS NOT NULL" = 0)
    · exact (by decide : percentCount "IS NULL" = 0)

theorem inOK_where_null (qb : QueryBuilder) (hin : InOK qb) (f : String) (b : Bool) :
    InOK (qb.where_null f b) := by
  intro c hc
  rcases List.mem_append.mp hc with hmem | hmem
  · exact hin c hmem
  · rcases List.mem_singleton.mp hmem with rfl
    intro hop
    exfalso
    cases b
    · exact absurd hop (by decide : ¬ ("IS NOT NULL" : String) = "IN")
    · exact absurd hop (by decide : ¬ ("IS NULL" : String) = "IN")

/-- C1 counterexample: the claim says no value of any builder call is
interpolated into the statement text, but `limit(7)` puts the literal
`7` into the text (`LIMIT 7`) with no `%s` placeholder and an empty
parameter list, and the text varies with the value (`limit(8)` yields a
different statement), so the value is interpolated. -/
theorem C1_limit_interpolation_counterexample :
    ((QueryBuilder.init "organizations").limit 7).build =
        some ("SELECT * FROM organizations LIMIT 7;", []) ∧
    ((QueryBuilder.init "organizations").limit 8).build =
        some ("SELECT * FROM organizations LIMIT 8;", []) ∧
    percentCount "SELECT * FROM organizations LIMIT 7;" = 0 := by
  refine ⟨?_, ?_, ?_⟩ <;> decide

/-- C1 (amended): for every builder configuration whose identifier
strings are free of `'%'` and whose `IN` clauses hold iterable values,
`build` emits text whose `'%'` count (= number of `%s` placeholders)
equals the length of the parameter list, the parameters being exactly
the WHERE-clause comparison values in clause order followed by the
HAVING-clause values in clause order; a `where_in` over `n` values adds
exactly `n` placeholders and appends those `n` values in order (before
the HAVING parameters), and a `where_null` adds no placeholder and no
parameter.  (The LIMIT/OFFSET values, however, are interpolated into the
text as literals — see the counterexample.) -/
theorem C1_parameterization_amended (qb : QueryBuilder) (hclean : CleanQB qb)
    (hin : InOK qb) :
    ∃ sql, qb.build = some (sql,
        whereParamsList qb.whereClauses ++ qb.havingClauses.map (fun c => c.value)) ∧
      percentCount sql =
        (whereParamsList qb.whereClauses ++
          qb.havingClauses.map (fun c => c.value)).length ∧
      (∀ (f : String) (vs : List Val), percentCount f = 0 → ∃ sql2,
        (qb.where_in f vs).build = some (sql2,
          (whereParamsList qb.whereClauses ++ vs.map PyVal.prim) ++
            qb.havingClauses.map (fun c => c.value)) ∧
        percentCount sql2 = percentCount sql + vs.length) ∧
      (∀ (f : String) (b : Bool), percentCount f = 0 → ∃ sql3,
        (qb.where_null f b).build = some (sql3,
          whereParamsList qb.whereClauses ++ qb.havingClauses.map (fun c => c.value)) ∧
        percentCount sql3 = percentCount sql) := by
  obtain ⟨sql, hb, hpc⟩ := build_spec qb hclean hin
  refine ⟨sql, hb, hpc, ?_, ?_⟩
  · intro f vs hf
    obtain ⟨sql2, hb2, hpc2⟩ := build_spec (qb.where_in f vs)
      (cleanQB_where_in qb hclean f vs hf) (inOK_where_in qb hin f vs)
    have hwp : whereParamsList (qb.where_in f vs).whereClauses =
        whereParamsList qb.whereClauses ++ vs.map PyVal.prim := by
      show whereParamsList (qb.whereClauses ++ [⟨f, "IN", PyVal.plist vs, "AND"⟩]) = _
      rw [whereParamsList_append]
      simp [whereParamsList, clauseParams, pySeq]
    have hhv : (qb.where_in f vs).havingClauses = qb.havingClauses := rfl
    rw [hwp, hhv] at hb2 hpc2
    refine ⟨sql2, hb2, ?_⟩
    rw [hpc2, hpc]
    simp [List.length_append]
    omega
  · intro f b hf
    obtain ⟨sql3, hb3, hpc3⟩ := build_spec (qb.where_null f b)
      (cleanQB_where_null qb hclean f b hf) (inOK_where_null qb hin f b)
    have hwp : whereParamsList (qb.where_null f b).whereClauses =
        whereParamsList qb.whereClauses := by
      show whereParamsList (qb.whereClauses ++
        [⟨f, if b then "IS NULL" else "IS NOT NULL", PyVal.prim Val.vnull, "AND"⟩]) = _
      rw [whereParamsList_append]
      have hcp : clauseParams
          ⟨f, if b then "IS NULL" else "IS NOT NULL", PyVal.prim Val.vnull, "AND"⟩ = [] := by
        cases b <;> rfl
      simp [whereParamsList, hcp]
    have hhv : (qb.where_null f b).havingClauses = qb.havingClauses := rfl
    rw [hwp, hhv] at hb3 hpc3
    exact ⟨sql3, hb3, by rw [hpc3, hpc]⟩

/-- Concrete builder state used to witness the amended C1 theorem. -/
def c1demoQB : QueryBuilder :=
  ((QueryBuilder.init "people").where_ "last_name" "=" (PyVal.prim (Val.vstr "Doe"))).having
    "COUNT(*)" ">" (PyVal.prim (Val.vint 2))

/-- C1 witness: the amended theorem instantiated at a concrete builder
state with one WHERE clause and one HAVING clause. -/
theorem C1_parameterization_witness :
    CleanQB c1demoQB ∧ InOK c1demoQB ∧
    (∃ sql, c1demoQB.build = some (sql,
        whereParamsList c1demoQB.whereClauses ++
          c1demoQB.havingClauses.map (fun c => c.value)) ∧
      percentCount sql =
        (whereParamsList c1demoQB.whereClauses ++
          c1demoQB.havingClauses.map (fun c => c.value)).length ∧
      (∀ (f : String) (vs : List Val), percentCount f = 0 → ∃ sql2,
        (c1demoQB.where_in f vs).build = some (sql2,
          (whereParamsList c1demoQB.whereClauses ++ vs.map PyVal.prim) ++
            c1demoQB.havingClauses.map (fun c => c.value)) ∧
        percentCount sql2 = percentCount sql + vs.length) ∧
      (∀ (f : String) (b : Bool), percentCount f = 0 → ∃ sql3,
        (c1demoQB.where_null f b).build = some (sql3,
          whereParamsList c1demoQB.whereClauses ++
            c1demoQB.havingClauses.map (fun c => c.value)) ∧
        percentCount sql3 = percentCount sql)) :=
  ⟨by decide, by decide, C1_parameterization_amended c1demoQB (by decide) (by decide)⟩

/-- C10 counterexample: `build` is not total for every input — a
`where(field, "IN", value)` call with a non-iterable value (here the
integer `5`) makes `build` raise a `TypeError` (Python `len(5)`),
modelled as `none`. -/
theorem C10_in_typeerror_counterexample :
    ((QueryBuilder.init "t").where_ "f" "IN" (PyVal.prim (Val.vint 5))).build = none := by
  decide

/-- C10 (amended): `build` succeeds on every configuration whose
`IN`-operator clauses hold iterable values — in particular on every
state reached through `where_in`, even with an empty value list; a
`where_in(field, [])` leaves the parameter list unchanged and emits
statement text containing `field IN ()` (not well-formed SQL, so a
well-formed statement needs every `where_in` list non-empty), and under
the `'%'`-free identifier assumption the placeholder count still equals
the parameter count. -/
theorem C10_where_in_empty_amended (qb : QueryBuilder) (hin : InOK qb) :
    (qb.build).isSome ∧
    (∀ f : String, ∃ sql0 params sql1,
      qb.build = some (sql0, params) ∧
      (qb.where_in f []).build = some (sql1, params) ∧
      HasSub sql1 (f ++ " IN ()")) ∧
    (CleanQB qb → ∀ f : String, percentCount f = 0 → ∃ sql1 params1,
      (qb.where_in f []).build = some (sql1, params1) ∧
      percentCount sql1 = params1.length) := by
  obtain ⟨hts0, hbh, _⟩ := bhp_spec qb.havingClauses true
  refine ⟨?_, ?_, ?_⟩
  · obtain ⟨wts, hbw⟩ := bwp_some qb.whereClauses hin true
    rw [build_eq qb hbw hbh]
    rfl
  · intro f
    obtain ⟨ts, conn, hts, htsx⟩ := bwp_snoc_in f [] qb.whereClauses hin true
    have hb0 := build_eq qb hts hbh
    have hb1 := build_eq (qb.where_in f []) htsx hbh
    have hfix : (whereParamsList qb.whereClauses ++ List.map PyVal.prim []) ++
        qb.havingClauses.map (fun c => c.value) =
        whereParamsList qb.whereClauses ++ qb.havingClauses.map (fun c => c.value) := by
      simp
    rw [hfix] at hb1
    refine ⟨_, _, _, hb0, hb1, ?_⟩
    have hsubLast : HasSub (conn ++ " " ++ f ++ " IN (" ++
        pyJoin ", " (List.replicate (List.length ([] : List Val)) "%s") ++ ")")
        (f ++ " IN ()") := by
      refine ⟨conn ++ " ", "", ?_⟩
      show conn ++ " " ++ f ++ " IN (" ++ "" ++ ")" = (conn ++ " ") ++ (f ++ " IN ()") ++ ""
      have hlit : (" IN (" : String) ++ ")" = " IN ()" := rfl
      simp [String.append_assoc, hlit]
    have hmemLast : (conn ++ " " ++ f ++ " IN (" ++
        pyJoin ", " (List.replicate (List.length ([] : List Val)) "%s") ++ ")") ∈
        (ts ++ [conn ++ " " ++ f ++ " IN (" ++
          pyJoin ", " (List.replicate (List.length ([] : List Val)) "%s") ++ ")"]) :=
      List.mem_append_right ts (List.mem_singleton_self _)
    have hne : ¬ (qb.where_in f []).whereClauses = [] := by
      show ¬ (qb.whereClauses ++ [⟨f, "IN", PyVal.plist [], "AND"⟩]) = []
      simp
    have hmemSec := mem_assembleParts_whereSec (qb.where_in f [])
      (ts ++ [conn ++ " " ++ f ++ " IN (" ++
        pyJoin ", " (List.replicate (List.length ([] : List Val)) "%s") ++ ")"]) hts0 hne
    exact hasSub_appendR ";"
      (hasSub_trans (hasSub_pyJoin " " hmemSec)
        (hasSub_trans (hasSub_appendL "WHERE " (hasSub_pyJoin " " hmemLast)) hsubLast))
  · intro hclean f hf
    obtain ⟨sql2, hb2, hpc2⟩ := build_spec (qb.where_in f [])
      (cleanQB_where_in qb hclean f [] hf) (inOK_where_in qb hin f [])
    exact ⟨sql2, _, hb2, hpc2⟩

/-- Concrete builder state used to witness the amended C10 theorem. -/
def c10demoQB : QueryBuilder :=
  (QueryBuilder.init "organizations").where_ "is_active" "=" (PyVal.prim (Val.vbool true))

/-- C10 witness: the amended theorem instantiated at a concrete builder
state with one ordinary WHERE clause. -/
theorem C10_where_in_empty_witness :
    InOK c10demoQB ∧
    ((c10demoQB.build).isSome ∧
    (∀ f : String, ∃ sql0 params sql1,
      c10demoQB.build = some (sql0, params) ∧
      (c10demoQB.where_in f []).build = some (sql1, params) ∧
      HasSub sql1 (f ++ " IN ()")) ∧
    (CleanQB c10demoQB → ∀ f : String, percentCount f = 0 → ∃ sql1 params1,
      (c10demoQB.where_in f []).build = some (sql1, params1) ∧
      percentCount sql1 = params1.length)) :=
  ⟨by decide, C10_where_in_empty_amended c10demoQB (by decide)⟩

/-- A committed row of a table: surrogate integer id, column values, and
the repository-managed `created_at` / `updated_at` timestamps (modelled
as naturals). -/
structure Row where
  id : Nat
  fields : List (String × Val)
  createdAt : Nat
  updatedAt : Nat
deriving DecidableEq, Repr

/-- A committed table state: the rows in insertion order. -/
abbrev Table := List Row

/-- Column lookup in a field map (first binding wins); `none` models SQL
NULL / an absent column. -/
def lookupField : List (String × Val) → String → Option Val
  | [], _ => none
  | (k2, v) :: rest, k => if k2 = k then some v else lookupField rest k

/-- Overwrite (or add) one column binding. -/
def setField : List (String × Val) → String → Val → List (String × Val)
  | [], k, v => [(k, v)]
  | (k2, v2) :: rest, k, v =>
    if k2 = k then (k, v) :: rest else (k2, v2) :: setField rest k v

/-- Overwrite a set of column bindings, left to right. -/
def setFields (fs : List (String × Val)) (upd : List (String × Val)) : List (String × Val) :=
  upd.foldl (fun acc kv => setField acc kv.1 kv.2) fs

/-- Keys of a field map, in order. -/
def keysOf (data : List (String × Val)) : List String := data.map Prod.fst

/-- Does row `r` collide with `data` on every column of `uniq`?  Mirrors
the conflict condition of a Postgres unique index: a conflict needs
non-NULL equality on every indexed column. -/
def rowMatches (uniq : List String) (data : List (String × Val)) (r : Row) : Bool :=
  uniq.all (fun f =>
    match lookupField data f with
    | some v => decide (¬ v = Val.vnull) && decide (lookupField r.fields f = some v)
    | none => false)

/-- Errors the backing store can raise while executing a statement. -/
inductive SqlError where
  | syntaxError
  | uniqueViolation
deriving DecidableEq, Repr

/-- The `DO UPDATE SET` columns of `BaseRepository.upsert`: the data
columns outside the conflict target (repository.py line 272). -/
def updateFieldsOf (data : List (String × Val)) (uniq : List String) : List String :=
  (keysOf data).filter (fun c => decide (¬ c ∈ uniq))

/-- The row produced by the `DO UPDATE SET` branch of the upsert: non-key
columns overwritten from `data`, `updated_at` refreshed. -/
def upsertUpdatedRow (uniq : List String) (data : List (String × Val)) (now : Nat)
    (r2 : Row) : Row :=
  { r2 with
    fields := setFields r2.fields (data.filter (fun kv => decide (¬ kv.1 ∈ uniq))),
    updatedAt := now }

/-- Postgres execution of the statement generated by
`BaseRepository.upsert` (INSERT ... ON CONFLICT (uniq) DO UPDATE SET
non-key cols, updated_at = now RETURNING id).  An empty conflict target
or an empty SET list makes the statement text ill-formed, which the
store rejects (`syntaxError`); otherwise a conflicting row is updated in
place (non-key columns overwritten from `data`, `updated_at`
refreshed), or a new row is inserted with a fresh id. -/
def executeUpsert (tbl : Table) (uniq : List String) (data : List (String × Val))
    (now fid : Nat) : Except SqlError (Nat × Table) :=
  if uniq = [] ∨ updateFieldsOf data uniq = [] then .error .syntaxError
  else
    match tbl.find? (rowMatches uniq data) with
    | some r =>
      .ok (r.id, tbl.map (fun r2 => if r2.id = r.id then upsertUpdatedRow uniq data now r2
        else r2))
    | none =>
      .ok (fid, tbl ++ [{ id := fid, fields := data, createdAt := now, updatedAt := now }])

/-- One `INSERT ... RETURNING id` as executed by `BaseRepository.create`:
`get_cursor` opens a fresh connection and commits on success
(connection.py lines 23-29), so the new row is durable immediately; the
insert fails if it collides with an existing row on the table's unique
key `uniq`. -/
def createRow (uniq : List String) (tbl : Table) (data : List (String × Val))
    (now fid : Nat) : Except SqlError (Nat × Table) :=
  if tbl.any (rowMatches uniq data) then .error .uniqueViolation
  else .ok (fid, tbl ++ [{ id := fid, fields := data, createdAt := now, updatedAt := now }])

/-- `BaseRepository.create_many`: loops `self.create(data)` inside
`self.transaction()`, but `transaction` and every `create` each open
their own connection (connection.py), so each insert commits
independently; the returned table is the committed state even when a
later insert fails. -/
def createMany (uniq : List String) (now : Nat) :
    Table → Nat → List (List (String × Val)) → Table × Except SqlError (List Nat)
  | tbl, _, [] => (tbl, .ok [])
  | tbl, nid, d :: ds =>
    match createRow uniq tbl d now nid with
    | .error e => (tbl, .error e)
    | .ok (i, tbl2) =>
      match createMany uniq now tbl2 (nid + 1) ds with
      | (tblF, .ok is) => (tblF, .ok (i :: is))
      | (tblF, .error e) => (tblF, .error e)

/-- `BaseRepository.update`: an empty field map returns False before any
statement is issued; otherwise one UPDATE statement sets the given
columns and `updated_at = now` on the row with the given id and reports
`rowcount > 0`.  The `Nat` component counts the statements executed. -/
def updateEntity (tbl : Table) (i : Nat) (data : List (String × Val)) (now : Nat) :
    Bool × Table × Nat :=
  if data = [] then (false, tbl, 0)
  else
    (tbl.any (fun r => decide (r.id = i)),
     (tbl.map (fun r => if r.id = i then
       { r with fields := setFields r.fields data, updatedAt := now } else r), 1))

/-- The statement text interpolated by `BaseRepository.upsert`
(repository.py lines 277-283), whitespace of the triple-quoted f-string
included; only identifiers and `%s` placeholders are interpolated, the
values travel separately as parameters. -/
def upsertSQL (table : String) (uniqueFields dataKeys : List String) : String :=
  let placeholders := pyJoin ", " (List.replicate dataKeys.length "%s")
  let columnsStr := pyJoin ", " dataKeys
  let conflictTarget := pyJoin ", " uniqueFields
  let updateFields := dataKeys.filter (fun c => decide (¬ c ∈ uniqueFields))
  let updateClause := pyJoin ", " (updateFields.map (fun c => c ++ " = EXCLUDED." ++ c))
  "\n                INSERT INTO " ++ table ++ " (" ++ columnsStr ++
    ")\n                VALUES (" ++ placeholders ++
    ")\n                ON CONFLICT (" ++ conflictTarget ++
    ")\n                DO UPDATE SET " ++ updateClause ++
    ", updated_at = CURRENT_TIMESTAMP\n                RETURNING id;\n                "

/-- C8: `update(id, data)` with an empty field map returns False without
raising, executes zero statements, and leaves every row unchanged. -/
theorem C8_empty_update_noop (tbl : Table) (i now : Nat) :
    updateEntity tbl i [] now = (false, tbl, 0) := by
  simp [updateEntity]

/-- C9: for every upsert whose data keys all lie inside the
unique/conflict field set, the generated SET list is empty and the
statement text contains the malformed fragment `DO UPDATE SET ,
updated_at = CURRENT_TIMESTAMP`; hence the generated upsert statement
is well-formed only when the data contains at least one field outside
the conflict target. -/
theorem C9_empty_set_clause (table : String) (uniq keys : List String)
    (h : ∀ k ∈ keys, k ∈ uniq) :
    ∃ pre post, upsertSQL table uniq keys =
      pre ++ "DO UPDATE SET , updated_at = CURRENT_TIMESTAMP" ++ post := by
  have hf : keys.filter (fun c => decide (¬ c ∈ uniq)) = [] := by
    apply List.filter_eq_nil_iff.mpr
    intro k hk
    simp [h k hk]
  refine ⟨"\n                INSERT INTO " ++ table ++ " (" ++ pyJoin ", " keys ++
    ")\n                VALUES (" ++ pyJoin ", " (List.replicate keys.length "%s") ++
    ")\n                ON CONFLICT (" ++ pyJoin ", " uniq ++ ")\n                ",
    "\n                RETURNING id;\n                ", ?_⟩
  unfold upsertSQL
  rw [hf]
  have h1 : (")\n                DO UPDATE SET " : String) =
      ")\n                " ++ "DO UPDATE SET " := rfl
  have h2 : (", updated_at = CURRENT_TIMESTAMP\n                RETURNING id;\n                " :
      String) = ", updated_at = CURRENT_TIMESTAMP" ++
      "\n                RETURNING id;\n                " := rfl
  have h3 : ("DO UPDATE SET , updated_at = CURRENT_TIMESTAMP" : String) =
      "DO UPDATE SET " ++ ", updated_at = CURRENT_TIMESTAMP" := rfl
  simp only [List.map_nil, pyJoin]
  rw [h1, h2, h3]
  simp [String.append_assoc]

/-- A concrete upsert whose data keys all lie in the conflict field set,
witnessing the C9 theorem's hypothesis. -/
theorem C9_empty_set_clause_witness :
    (∀ k ∈ ["slug"], k ∈ ["slug", "fiscal_year"]) ∧
    (∃ pre post, upsertSQL "organizations" ["slug", "fiscal_year"] ["slug"] =
      pre ++ "DO UPDATE SET , updated_at = CURRENT_TIMESTAMP" ++ post) :=
  ⟨by decide, C9_empty_set_clause "organizations" ["slug", "fiscal_year"] ["slug"] (by decide)⟩

/-- A duplicated field map used to exhibit the partial commit of
`create_many`. -/
def c3data : List (String × Val) := [("slug", Val.vstr "x"), ("name", Val.vstr "a")]

/-- C3 (code bug): `create_many([d, d])` on an empty table whose unique
key is `slug` fails on the second insert, yet the first row stays
committed — each `create` ran on its own connection and committed, so
the batch is not all-or-nothing, contradicting `create_many`'s own
docstring ("Create multiple entities in one transaction") and the
`transaction()` docstring ("rolls back on exception"). -/
theorem C3_partial_commit :
    createMany ["slug"] 0 [] 1 [c3data, c3data] =
      ([{ id := 1, fields := c3data, createdAt := 0, updatedAt := 0 }],
        .error .uniqueViolation) ∧
    ([{ id := 1, fields := c3data, createdAt := 0, updatedAt := 0 }] : Table) ≠ ([] : Table) :=
  ⟨rfl, by decide⟩

theorem lookup_setField_self (fs : List (String × Val)) (k : String) (v : Val) :
    lookupField (setField fs k v) k = some v := by
  induction fs with
  | nil => simp [setField, lookupField]
  | cons kv rest ih =>
    by_cases h : kv.1 = k
    · simp [setField, h, lookupField]
    · simp [setField, h, lookupField, ih]

theorem lookup_setField_other (fs : List (String × Val)) (k k2 : String) (v : Val)
    (h : ¬ k2 = k) : lookupField (setField fs k v) k2 = lookupField fs k2 := by
  have h' : ¬ k = k2 := fun hh => h hh.symm
  induction fs with
  | nil => simp [setField, lookupField, h']
  | cons kv rest ih =>
    by_cases hk : kv.1 = k
    · subst hk
      simp [setField, lookupField, h']
    · by_cases hk2 : kv.1 = k2
      · simp [setField, hk, lookupField, hk2, h]
      · simp [setField, hk, lookupField, hk2, ih]

theorem lookup_setFields_notmem (upd : List (String × Val)) :
    ∀ (fs : List (String × Val)) (k : String), ¬ k ∈ keysOf upd →
      lookupField (setFields fs upd) k = lookupField fs k := by
  induction upd with
  | nil => intro fs k _; rfl
  | cons kv rest ih =>
    intro fs k hk
    have hk1 : ¬ k = kv.1 := by
      intro h
      exact hk (by simp [keysOf, h])
    have hkr : ¬ k ∈ keysOf rest := by
      intro h
      exact hk (by simp [keysOf] at h ⊢; exact Or.inr h)
    show lookupField (setFields (setField fs kv.1 kv.2) rest) k = lookupField fs k
    rw [ih (setField fs kv.1 kv.2) k hkr, lookup_setField_other fs kv.1 k kv.2 hk1]

theorem lookup_setFields_mem (upd : List (String × Val)) :
    ∀ (fs : List (String × Val)) (k : String) (v : Val), (k, v) ∈ upd →
      (keysOf upd).Nodup → lookupField (setFields fs upd) k = some v := by
  induction upd with
  | nil => intro fs k v h; exact absurd h (List.not_mem_nil _)
  | cons kv rest ih =>
    intro fs k v hmem hnd
    have hnd2 : (keysOf rest).Nodup := (List.nodup_cons.mp hnd).2
    rcases List.mem_cons.mp hmem with rfl | hmem2
    · have hk : ¬ k ∈ keysOf rest := by
        have := (List.nodup_cons.mp hnd).1
        simpa [keysOf] using this
      show lookupField (setFields (setField fs k v) rest) k = some v
      rw [lookup_setFields_notmem rest _ k hk, lookup_setField_self]
    · exact ih _ k v hmem2 hnd2

theorem lookup_of_mem_nodup (data : List (String × Val)) (k : String) (v : Val)
    (hmem : (k, v) ∈ data) (hnd : (keysOf data).Nodup) :
    lookupField data k = some v := by
  induction data with
  | nil => exact absurd hmem (List.not_mem_nil _)
  | cons kv rest ih =>
    rcases List.mem_cons.mp hmem with rfl | hmem2
    · simp [lookupField]
    · have hk : ¬ kv.1 = k := by
        intro h
        have h1 : kv.1 ∈ keysOf rest := by
          rw [h]
          exact List.mem_map.mpr ⟨(k, v), hmem2, rfl⟩
        have := (List.nodup_cons.mp hnd).1
        exact this h1
      simp [lookupField, hk]
      exact ih hmem2 (List.nodup_cons.mp hnd).2

theorem keys_filter_not_uniq (data : List (String × Val)) (uniq : List String) :
    ∀ k ∈ keysOf (data.filter (fun kv => decide (¬ kv.1 ∈ uniq))), ¬ k ∈ uniq := by
  intro k hk
  obtain ⟨kv, hkv, rfl⟩ := List.mem_map.mp hk
  have := List.mem_filter.mp hkv
  simpa using this.2

theorem rowMatches_eq_true (uniq : List String) (data : List (String × Val)) (r : Row) :
    rowMatches uniq data r = true ↔
      ∀ f ∈ uniq, ∃ v, lookupField data f = some v ∧ ¬ v = Val.vnull ∧
        lookupField r.fields f = some v := by
  unfold rowMatches
  rw [List.all_eq_true]
  constructor
  · intro h f hf
    have hb := h f hf
    revert hb
    cases hl : lookupField data f with
    | none => intro hb; simp at hb
    | some v =>
      intro hb
      simp at hb
      exact ⟨v, rfl, hb.1, hb.2⟩
  · intro h f hf
    obtain ⟨v, hv, hnn, hr⟩ := h f hf
    rw [hv]
    simp [hnn, hr]

theorem rowMatches_upsertUpdatedRow (uniq : List String) (data : List (String × Val))
    (now : Nat) (r2 : Row) (h : rowMatches uniq data r2 = true) :
    rowMatches uniq data (upsertUpdatedRow uniq data now r2) = true := by
  rw [rowMatches_eq_true] at h ⊢
  intro f hf
  obtain ⟨v, hv, hnn, hr⟩ := h f hf
  refine ⟨v, hv, hnn, ?_⟩
  show lookupField (setFields r2.fields _) f = some v
  rw [lookup_setFields_notmem _ _ _ (fun hmem => keys_filter_not_uniq data uniq f hmem hf)]
  exact hr

theorem rowMatches_newRow (uniq : List String) (data : List (String × Val)) (fid now : Nat)
    (hkeys : ∀ f ∈ uniq, ∃ v, lookupField data f = some v ∧ ¬ v = Val.vnull) :
    rowMatches uniq data { id := fid, fields := data, createdAt := now, updatedAt := now }
      = true := by
  rw [rowMatches_eq_true]
  intro f hf
  obtain ⟨v, hv, hnn⟩ := hkeys f hf
  exact ⟨v, hv, hnn, hv⟩

theorem mem_eq_of_length_le_one {α : Type} {l : List α} (h : l.length ≤ 1) {a b : α}
    (ha : a ∈ l) (hb : b ∈ l) : a = b := by
  cases l with
  | nil => exact absurd ha (List.not_mem_nil _)
  | cons x xs =>
    cases xs with
    | nil => rw [List.mem_singleton.mp ha, List.mem_singleton.mp hb]
    | cons y ys =>
      exfalso
      simp [List.length_cons] at h

theorem filter_id_singleton :
    ∀ (l : Table) (r : Row), (l.map (fun x => x.id)).Nodup → r ∈ l →
      l.filter (fun x => decide (x.id = r.id)) = [r] := by
  intro l r
  induction l with
  | nil => intro _ hm; exact absurd hm (List.not_mem_nil _)
  | cons a l2 ih =>
    intro hnd hm
    have hndc : (a.id :: l2.map (fun x => x.id)).Nodup := by simpa using hnd
    have hnd0 := List.nodup_cons.mp hndc
    rcases List.mem_cons.mp hm with rfl | hm2
    · have h0 : l2.filter (fun x => decide (x.id = r.id)) = [] := by
        apply List.filter_eq_nil_iff.mpr
        intro x hx
        simp only [decide_eq_true_eq]
        intro hxe
        exact hnd0.1 (List.mem_map.mpr ⟨x, hx, hxe⟩)
      rw [List.filter_cons_of_pos (by simp), h0]
    · have hne : ¬ a.id = r.id := by
        intro h
        exact hnd0.1 (h ▸ List.mem_map.mpr ⟨r, hm2, rfl⟩)
      rw [List.filter_cons_of_neg (by simpa using hne)]
      exact ih hnd0.2 hm2

/-- One upsert execution: under the validity conditions it succeeds,
leaves exactly one row matching the unique key, that row carries the
input's non-key fields and the fresh `updated_at`, row ids stay
duplicate-free, and no id beyond the old ones and the fresh one
appears. -/
theorem upsert_step (tbl : Table) (uniq : List String) (data : List (String × Val))
    (now fid : Nat)
    (huniq : ¬ uniq = [])
    (hkeysnd : (keysOf data).Nodup)
    (hkeys : ∀ f ∈ uniq, ∃ v, lookupField data f = some v ∧ ¬ v = Val.vnull)
    (hout : ∃ k ∈ keysOf data, ¬ k ∈ uniq)
    (hids : (tbl.map (fun r => r.id)).Nodup)
    (hone : (tbl.filter (rowMatches uniq data)).length ≤ 1)
    (hfid : ¬ fid ∈ tbl.map (fun r => r.id)) :
    ∃ rid tbl2, executeUpsert tbl uniq data now fid = .ok (rid, tbl2) ∧
      (tbl2.filter (rowMatches uniq data)).length = 1 ∧
      (∀ r ∈ tbl2, rowMatches uniq data r = true →
        (∀ k v, (k, v) ∈ data → ¬ k ∈ uniq → lookupField r.fields k = some v) ∧
        r.updatedAt = now) ∧
      (tbl2.map (fun r => r.id)).Nodup ∧
      (∀ i ∈ tbl2.map (fun r => r.id), i ∈ tbl.map (fun r => r.id) ∨ i = fid) := by
  have hguard : ¬ (uniq = [] ∨ updateFieldsOf data uniq = []) := by
    push_neg
    refine ⟨huniq, ?_⟩
    obtain ⟨k, hk, hknot⟩ := hout
    have hkmem : k ∈ updateFieldsOf data uniq := by
      unfold updateFieldsOf
      exact List.mem_filter.mpr ⟨hk, by simpa using hknot⟩
    exact List.ne_nil_of_mem hkmem
  unfold executeUpsert
  rw [if_neg hguard]
  cases hfind : tbl.find? (rowMatches uniq data) with
  | none =>
    have hnomatch : ∀ x ∈ tbl, ¬ rowMatches uniq data x = true := List.find?_eq_none.mp hfind
    have hfilter : tbl.filter (rowMatches uniq data) = [] :=
      List.filter_eq_nil_iff.mpr hnomatch
    refine ⟨fid, _, rfl, ?_, ?_, ?_, ?_⟩
    · rw [List.filter_append, hfilter,
        List.filter_cons_of_pos (rowMatches_newRow uniq data fid now hkeys)]
      rfl
    · intro r hr hmatch
      rcases List.mem_append.mp hr with hin | hnew
      · exact absurd hmatch (hnomatch r hin)
      · rcases List.mem_singleton.mp hnew with rfl
        exact ⟨fun k v hkv _ => lookup_of_mem_nodup data k v hkv hkeysnd, rfl⟩
    · rw [List.map_append]
      simp [List.nodup_append, hids, hfid]
    · intro i hi
      rw [List.map_append] at hi
      rcases List.mem_append.mp hi with h1 | h2
      · exact Or.inl h1
      · right
        simpa using h2
  | some r =>
    have hrmem : r ∈ tbl := List.mem_of_find?_eq_some hfind
    have hrmatch : rowMatches uniq data r = true := List.find?_some hfind
    have hrfil : r ∈ tbl.filter (rowMatches uniq data) := List.mem_filter.mpr ⟨hrmem, hrmatch⟩
    have hinj : ∀ a ∈ tbl, ∀ b ∈ tbl, a.id = b.id → a = b := List.inj_on_of_nodup_map hids
    have hndf : (keysOf (data.filter (fun kv => decide (¬ kv.1 ∈ uniq)))).Nodup := by
      unfold keysOf
      exact List.Nodup.sublist ((List.filter_sublist _).map Prod.fst) hkeysnd
    have hpoint : ∀ r2 ∈ tbl,
        rowMatches uniq data (if r2.id = r.id then upsertUpdatedRow uniq data now r2 else r2)
          = decide (r2.id = r.id) := by
      intro r2 h2
      by_cases hid : r2.id = r.id
      · have heq : r2 = r := hinj r2 h2 r hrmem hid
        rw [heq, if_pos rfl, rowMatches_upsertUpdatedRow uniq data now r hrmatch]
        simp
      · rw [if_neg hid]
        have hnm : ¬ rowMatches uniq data r2 = true := by
          intro hm
          have hfilmem : r2 ∈ tbl.filter (rowMatches uniq data) :=
            List.mem_filter.mpr ⟨h2, hm⟩
          have := mem_eq_of_length_le_one hone hfilmem hrfil
          exact hid (by rw [this])
        rw [Bool.not_eq_true] at hnm
        rw [hnm]
        simp [hid]
    have hcount : ((tbl.map (fun r2 =>
        if r2.id = r.id then upsertUpdatedRow uniq data now r2 else r2)).filter
          (rowMatches uniq data)).length = 1 := by
      rw [← List.countP_eq_length_filter, List.countP_map,
        List.countP_congr (fun x hx => by
          simp only [Function.comp]
          rw [hpoint x hx]),
        List.countP_eq_length_filter, filter_id_singleton tbl r hids hrmem]
      rfl
    have hidsmap : ((tbl.map (fun r2 =>
        if r2.id = r.id then upsertUpdatedRow uniq data now r2 else r2)).map
          (fun x => x.id)) = tbl.map (fun x => x.id) := by
      rw [List.map_map]
      apply List.map_congr_left
      intro a _
      by_cases hid : a.id = r.id
      · simp [Function.comp, hid, upsertUpdatedRow]
      · simp [Function.comp, hid]
    refine ⟨r.id, _, rfl, hcount, ?_, ?_, ?_⟩
    · intro r2 h2 hm
      obtain ⟨r3, h3, rfl⟩ := List.mem_map.mp h2
      by_cases hid : r3.id = r.id
      · constructor
        · intro k v hkv hknot
          rw [if_pos hid]
          show lookupField (setFields r3.fields _) k = some v
          apply lookup_setFields_mem
          · exact List.mem_filter.mpr ⟨hkv, by simpa using hknot⟩
          · exact hndf
        · rw [if_pos hid]
          rfl
      · rw [if_neg hid] at hm
        have hfilmem : r3 ∈ tbl.filter (rowMatches uniq data) :=
          List.mem_filter.mpr ⟨h3, hm⟩
        have := mem_eq_of_length_le_one hone hfilmem hrfil
        exact absurd (by rw [this]) hid
    · rw [hidsmap]
      exact hids
    · intro i hi
      rw [hidsmap] at hi
      exact Or.inl hi

instance (data : List (String × Val)) (f : String) :
    Decidable (∃ v, lookupField data f = some v ∧ ¬ v = Val.vnull) :=
  match lookupField data f with
  | some v =>
    if hv : v = Val.vnull then
      .isFalse (by
        rintro ⟨w, hw, hnw⟩
        have hvw : v = w := by injection hw
        rw [hvw] at hv
        exact hnw hv)
    else .isTrue ⟨v, rfl, hv⟩
  | none =>
    .isFalse (by
      rintro ⟨w, hw, _⟩
      exact Option.noConfusion hw)

/-- A field map valid for an upsert keyed on `uniq`: a non-empty unique
field set, duplicate-free keys, a non-NULL value supplied for every
unique field (a NULL key column would defeat the conflict detection),
and at least one field outside the conflict target (otherwise the
generated SET list is empty and the statement ill-formed — see the C9
theorem). -/
def ValidFieldMap (uniq : List String) (data : List (String × Val)) : Prop :=
  ¬ uniq = [] ∧ (keysOf data).Nodup ∧
  (∀ f ∈ uniq, ∃ v, lookupField data f = some v ∧ ¬ v = Val.vnull) ∧
  (∃ k ∈ keysOf data, ¬ k ∈ uniq)

instance (uniq : List String) (data : List (String × Val)) :
    Decidable (ValidFieldMap uniq data) := by
  unfold ValidFieldMap
  infer_instance

/-- C2: calling upsert twice with identical valid input on a table whose
ids are duplicate-free and which satisfies the unique constraint (at
most one row matches the key) succeeds both times, leaves exactly one
row matching the unique key, that row's non-key fields equal the input,
and the `updated_at` written by the second call (`t2`) is ≥ the one
written by the first call (`t1`, with time monotone). -/
theorem C2_upsert_idempotent (tbl : Table) (uniq : List String)
    (data : List (String × Val)) (t1 t2 f1 f2 : Nat)
    (hvalid : ValidFieldMap uniq data)
    (hids : (tbl.map (fun r => r.id)).Nodup)
    (hone : (tbl.filter (rowMatches uniq data)).length ≤ 1)
    (hf1 : ¬ f1 ∈ tbl.map (fun r => r.id))
    (hf2 : ¬ f2 ∈ tbl.map (fun r => r.id))
    (hf12 : ¬ f2 = f1)
    (ht : t1 ≤ t2) :
    ∃ id1 tbl1 id2 tbl2,
      executeUpsert tbl uniq data t1 f1 = .ok (id1, tbl1) ∧
      executeUpsert tbl1 uniq data t2 f2 = .ok (id2, tbl2) ∧
      (tbl2.filter (rowMatches uniq data)).length = 1 ∧
      (∀ r ∈ tbl2, rowMatches uniq data r = true →
        (∀ k v, (k, v) ∈ data → ¬ k ∈ uniq → lookupField r.fields k = some v) ∧
        r.updatedAt = t2) ∧
      (∀ r ∈ tbl1, rowMatches uniq data r = true →
        r.updatedAt = t1 ∧ r.updatedAt ≤ t2) := by
  obtain ⟨huniq, hnd, hkeys, hout⟩ := hvalid
  obtain ⟨id1, tbl1, hex1, hcount1, hprops1, hids1, hsub1⟩ :=
    upsert_step tbl uniq data t1 f1 huniq hnd hkeys hout hids hone hf1
  have hf2n : ¬ f2 ∈ tbl1.map (fun r => r.id) := by
    intro h
    rcases hsub1 f2 h with h1 | h2
    · exact hf2 h1
    · exact hf12 h2
  obtain ⟨id2, tbl2, hex2, hcount2, hprops2, hids2, hsub2⟩ :=
    upsert_step tbl1 uniq data t2 f2 huniq hnd hkeys hout hids1
      (le_of_eq hcount1) hf2n
  refine ⟨id1, tbl1, id2, tbl2, hex1, hex2, hcount2, hprops2, ?_⟩
  intro r hr hm
  exact ⟨(hprops1 r hr hm).2, by rw [(hprops1 r hr hm).2]; exact ht⟩

/-- The field map of the C2 witness: unique key `slug`, one non-key
column. -/
def c2data : List (String × Val) := [("slug", Val.vstr "ucla"), ("name", Val.vstr "UCLA")]

/-- C2 witness: the idempotence theorem instantiated at an empty table,
unique key `["slug"]`, timestamps 0 then 1, fresh ids 1 then 2. -/
theorem C2_upsert_idempotent_witness :
    ValidFieldMap ["slug"] c2data ∧
    (∃ id1 tbl1 id2 tbl2,
      executeUpsert [] ["slug"] c2data 0 1 = .ok (id1, tbl1) ∧
      executeUpsert tbl1 ["slug"] c2data 1 2 = .ok (id2, tbl2) ∧
      (tbl2.filter (rowMatches ["slug"] c2data)).length = 1 ∧
      (∀ r ∈ tbl2, rowMatches ["slug"] c2data r = true →
        (∀ k v, (k, v) ∈ c2data → ¬ k ∈ ["slug"] → lookupField r.fields k = some v) ∧
        r.updatedAt = 1) ∧
      (∀ r ∈ tbl1, rowMatches ["slug"] c2data r = true →
        r.updatedAt = 0 ∧ r.updatedAt ≤ 1)) :=
  ⟨by decide, C2_upsert_idempotent [] ["slug"] c2data 0 1 1 2 (by decide) (by decide)
    (by decide) (by decide) (by decide) (by decide) (by decide)⟩

/-- Outcome of a migration module's `up`/`down` (an exception or normal
return). -/
inductive MigErr where
  | upFailed
  | downFailed
deriving DecidableEq, Repr

/-- `mark_migration_applied`: INSERT ... ON CONFLICT (version) DO
NOTHING — the applied set gains the version when absent. -/
def markApplied (applied : List String) (v : String) : List String :=
  if v ∈ applied then applied else applied ++ [v]

/-- `mark_migration_rolled_back`: DELETE FROM schema_migrations WHERE
version = v. -/
def markRolledBack (applied : List String) (v : String) : List String :=
  applied.filter (fun w => decide (¬ w = v))

/-- `apply_migration`: runs the module's `up` (outcome supplied by the
oracle `upFn`); only after `up` returns is the version marked applied,
so an exception from `up` propagates with the bookkeeping unchanged. -/
def applyMigration (upFn : String → Except MigErr Unit) (applied : List String)
    (v : String) : List String × Option MigErr :=
  match upFn v with
  | .error e => (applied, some e)
  | .ok _ => (markApplied applied v, none)

/-- `rollback_migration`: runs the module's `down`; only after `down`
returns is the version removed from the applied set. -/
def rollbackMigration (downFn : String → Except MigErr Unit) (applied : List String)
    (v : String) : List String × Option MigErr :=
  match downFn v with
  | .error e => (applied, some e)
  | .ok _ => (markRolledBack applied v, none)

/-- `get_pending_migrations`: available migrations minus the applied
versions, in file order. -/
def getPending (avail : List (String × String)) (applied : List String) :
    List (String × String) :=
  avail.filter (fun vp => decide (¬ vp.1 ∈ applied))

/-- Python string `<`: lexicographic comparison by code point. -/
def pyStrLt : List Char → List Char → Bool
  | [], [] => false
  | [], _ :: _ => true
  | _ :: _, [] => false
  | a :: as, b :: bs => if a < b then true else if b < a then false else pyStrLt as bs

/-- Python `s < t` on strings. -/
def pyLt (s t : String) : Bool := pyStrLt s.data t.data

/-- Python `s <= t` on strings. -/
def pyLe (s t : String) : Bool := ! pyLt t s

/-- The break condition of `migrate_up`'s loop: Python's
`if target_version and version > target_version: break` — an absent or
empty-string target is falsy and never stops the loop. -/
def stopAt (target : Option String) (v : String) : Bool :=
  match target with
  | none => false
  | some t => decide (¬ t = "") && pyLt t v

/-- The observable result of one `migrate_up` call: the committed applied
set, the versions applied during this call in order, and the propagated
exception if any. -/
structure MigRun where
  applied : List String
  ran : List String
  err : Option MigErr
deriving DecidableEq, Repr

/-- The loop of `migrate_up` over the pending list: break on the target
condition, otherwise apply and mark each migration; an exception stops
the loop but the marks already committed persist. -/
def migrateUpAux (upFn : String → Except MigErr Unit) (target : Option String) :
    List (String × String) → List String → MigRun
  | [], applied => ⟨applied, [], none⟩
  | (v, _) :: rest, applied =>
    if stopAt target v then ⟨applied, [], none⟩
    else
      match applyMigration upFn applied v with
      | (applied2, some e) => ⟨applied2, [], some e⟩
      | (applied2, none) =>
        let r := migrateUpAux upFn target rest applied2
        ⟨r.applied, v :: r.ran, r.err⟩

/-- `migrate_up(target_version)`. -/
def migrateUp (avail : List (String × String)) (upFn : String → Except MigErr Unit)
    (applied : List String) (target : Option String) : MigRun :=
  migrateUpAux upFn target (getPending avail applied) applied

theorem markApplied_mem (applied : List String) (v x : String) (h : x ∈ applied) :
    x ∈ markApplied applied v := by
  unfold markApplied
  split
  · exact h
  · exact List.mem_append_left _ h

theorem markApplied_self (applied : List String) (v : String) :
    v ∈ markApplied applied v := by
  unfold markApplied
  split
  · assumption
  · exact List.mem_append_right _ (List.mem_singleton_self v)

theorem migrateUpAux_applied_mono (upFn : String → Except MigErr Unit)
    (target : Option String) :
    ∀ (pending : List (String × String)) (applied : List String) (x : String),
      x ∈ applied → x ∈ (migrateUpAux upFn target pending applied).applied := by
  intro pending
  induction pending with
  | nil => intro applied x h; exact h
  | cons vp rest ih =>
    intro applied x h
    obtain ⟨v, p⟩ := vp
    unfold migrateUpAux
    split
    · exact h
    · unfold applyMigration
      cases hup : upFn v with
      | error e => simpa using h
      | ok u => simpa using ih (markApplied applied v) x (markApplied_mem applied v x h)

theorem migrateUpAux_ran_allok (upFn : String → Except MigErr Unit)
    (hok : ∀ v, upFn v = .ok ()) (target : Option String) :
    ∀ (pending : List (String × String)) (applied : List String),
      (migrateUpAux upFn target pending applied).ran =
        (pending.map Prod.fst).takeWhile (fun v => ! stopAt target v) := by
  intro pending
  induction pending with
  | nil => intro applied; rfl
  | cons vp rest ih =>
    intro applied
    obtain ⟨v, p⟩ := vp
    unfold migrateUpAux
    by_cases hstop : stopAt target v = true
    · rw [if_pos hstop]
      simp [List.takeWhile_cons, hstop]
    · rw [if_neg hstop]
      unfold applyMigration
      rw [hok v]
      simp only []
      rw [Bool.not_eq_true] at hstop
      simp [List.takeWhile_cons, hstop, ih]

theorem migrateUpAux_mem_applied_allok (upFn : String → Except MigErr Unit)
    (hok : ∀ v, upFn v = .ok ()) :
    ∀ (pending : List (String × String)) (applied : List String) (vp : String × String),
      vp ∈ pending →
        vp.1 ∈ (migrateUpAux upFn none pending applied).applied := by
  intro pending
  induction pending with
  | nil => intro applied vp h; exact absurd h (List.not_mem_nil _)
  | cons wp rest ih =>
    intro applied vp h
    obtain ⟨w, p⟩ := wp
    unfold migrateUpAux
    have hstop : stopAt none w = false := rfl
    rw [hstop]
    unfold applyMigration
    rw [hok w]
    simp only [if_neg (by decide : ¬ (false = true))]
    rcases List.mem_cons.mp h with rfl | hmem
    · simpa using migrateUpAux_applied_mono upFn none rest (markApplied applied w) w
        (markApplied_self applied w)
    · simpa using ih (markApplied applied w) vp hmem

/-- C6: an exception from a migration module's `up` during
`apply_migration` propagates before the version is recorded, and an
exception from `down` during `rollback_migration` propagates before the
version is removed — the `schema_migrations` bookkeeping is unchanged on
error in both directions. -/
theorem C6_error_leaves_bookkeeping (upFn downFn : String → Except MigErr Unit)
    (applied : List String) (v : String) (e e2 : MigErr)
    (hup : upFn v = .error e) (hdown : downFn v = .error e2) :
    applyMigration upFn applied v = (applied, some e) ∧
    rollbackMigration downFn applied v = (applied, some e2) := by
  constructor
  · simp [applyMigration, hup]
  · simp [rollbackMigration, hdown]

/-- An `up` oracle that always raises. -/
def c6up : String → Except MigErr Unit := fun _ => .error .upFailed

/-- A `down` oracle that always raises. -/
def c6down : String → Except MigErr Unit := fun _ => .error .downFailed

/-- C6 witness: a failing `up` and `down` on version "001" with "000"
already applied leave the applied set exactly as it was. -/
theorem C6_error_leaves_bookkeeping_witness :
    c6up "001" = .error .upFailed ∧ c6down "001" = .error .downFailed ∧
    (applyMigration c6up ["000"] "001" = (["000"], some .upFailed) ∧
     rollbackMigration c6down ["000"] "001" = (["000"], some .downFailed)) :=
  ⟨rfl, rfl,
    C6_error_leaves_bookkeeping c6up c6down ["000"] "001" .upFailed .downFailed rfl rfl⟩

/-- C4 counterexample: with `target_version = ""` (an empty string is
falsy in Python, so the break `if target_version and version >
target_version` never fires), `migrate_up` applies version "001" even
though "001" is greater than the target — refuting "stopping before
(and excluding) any version greater than the target" as universally
stated. -/
theorem C4_empty_target_counterexample :
    migrateUp [("001", "001_initial_schema.py")] (fun _ => .ok ()) [] (some "") =
      ⟨["001"], ["001"], none⟩ ∧ pyLt "" "001" = true := by
  constructor
  · rfl
  · decide

theorem takeWhile_none_target (l : List String) :
    l.takeWhile (fun v => ! stopAt none v) = l := by
  induction l with
  | nil => rfl
  | cons x xs ih => simp [List.takeWhile_cons, stopAt, ih]

/-- C4 (amended): pending migrations are exactly the available ones
minus the applied versions, in ascending order when the available list
is sorted; with a truthy (non-empty) target, `migrate_up` applies
exactly the ascending prefix of the pending list up to the target,
never a version greater than it; with no target it applies every
pending migration in ascending order; and an immediate second
`migrate_up()` applies zero additional versions.  (An EMPTY-STRING
target is falsy in Python and behaves like no target — see the
counterexample.) -/
theorem C4_migrations_amended (avail : List (String × String)) (applied : List String)
    (upFn : String → Except MigErr Unit)
    (hsorted : avail.Pairwise (fun a b => pyLe a.1 b.1 = true))
    (hok : ∀ v, upFn v = .ok ()) :
    (∀ vp, vp ∈ getPending avail applied ↔ vp ∈ avail ∧ ¬ vp.1 ∈ applied) ∧
    (getPending avail applied).Pairwise (fun a b => pyLe a.1 b.1 = true) ∧
    (∀ t, ¬ t = "" →
      (migrateUp avail upFn applied (some t)).ran =
        ((getPending avail applied).map Prod.fst).takeWhile
          (fun v => ! stopAt (some t) v) ∧
      (∀ v ∈ (migrateUp avail upFn applied (some t)).ran, ¬ pyLt t v = true)) ∧
    ((migrateUp avail upFn applied none).ran =
      (getPending avail applied).map Prod.fst) ∧
    ((migrateUp avail upFn applied none).ran.Pairwise (fun a b => pyLe a b = true)) ∧
    (migrateUp avail upFn (migrateUp avail upFn applied none).applied none).ran = [] := by
  have hpendSorted : (getPending avail applied).Pairwise
      (fun a b => pyLe a.1 b.1 = true) :=
    List.Pairwise.sublist (List.filter_sublist _) hsorted
  have hranNone : (migrateUp avail upFn applied none).ran =
      (getPending avail applied).map Prod.fst := by
    have hrw : (migrateUp avail upFn applied none).ran =
        ((getPending avail applied).map Prod.fst).takeWhile (fun v => ! stopAt none v) :=
      migrateUpAux_ran_allok upFn hok none (getPending avail applied) applied
    rw [hrw, takeWhile_none_target]
  refine ⟨?_, hpendSorted, ?_, hranNone, ?_, ?_⟩
  · intro vp
    unfold getPending
    rw [List.mem_filter]
    simp
  · intro t ht
    have hrw : (migrateUp avail upFn applied (some t)).ran =
        ((getPending avail applied).map Prod.fst).takeWhile
          (fun v => ! stopAt (some t) v) :=
      migrateUpAux_ran_allok upFn hok (some t) (getPending avail applied) applied
    refine ⟨hrw, ?_⟩
    intro v hv
    rw [hrw] at hv
    have hp := List.mem_takeWhile_imp hv
    intro hlt
    simp [stopAt, ht, hlt] at hp
  · rw [hranNone]
    exact List.pairwise_map.mpr hpendSorted
  · have hpend2 : getPending avail (migrateUp avail upFn applied none).applied = [] := by
      apply List.filter_eq_nil_iff.mpr
      intro vp hvp
      simp only [decide_eq_true_eq, Decidable.not_not]
      by_cases hin : vp.1 ∈ applied
      · exact migrateUpAux_applied_mono upFn none (getPending avail applied) applied
          vp.1 hin
      · exact migrateUpAux_mem_applied_allok upFn hok (getPending avail applied) applied
          vp (List.mem_filter.mpr ⟨hvp, by simpa using hin⟩)
    show (migrateUpAux upFn none
      (getPending avail (migrateUp avail upFn applied none).applied)
      (migrateUp avail upFn applied none).applied).ran = []
    rw [hpend2]
    rfl

/-- C4 witness: the amended theorem instantiated at three available
migrations with "001" already applied and an always-succeeding `up`. -/
theorem C4_migrations_amended_witness :
    (([("001", "a"), ("002", "b"), ("003", "c")] : List (String × String)).Pairwise
      (fun a b => pyLe a.1 b.1 = true)) ∧
    ((∀ vp, vp ∈ getPending [("001", "a"), ("002", "b"), ("003", "c")] ["001"] ↔
        vp ∈ [("001", "a"), ("002", "b"), ("003", "c")] ∧ ¬ vp.1 ∈ ["001"]) ∧
    (getPending [("001", "a"), ("002", "b"), ("003", "c")] ["001"]).Pairwise
      (fun a b => pyLe a.1 b.1 = true) ∧
    (∀ t, ¬ t = "" →
      (migrateUp [("001", "a"), ("002", "b"), ("003", "c")] (fun _ => .ok ()) ["001"]
        (some t)).ran =
        ((getPending [("001", "a"), ("002", "b"), ("003", "c")] ["001"]).map
          Prod.fst).takeWhile (fun v => ! stopAt (some t) v) ∧
      (∀ v ∈ (migrateUp [("001", "a"), ("002", "b"), ("003", "c")] (fun _ => .ok ())
          ["001"] (some t)).ran, ¬ pyLt t v = true)) ∧
    ((migrateUp [("001", "a"), ("002", "b"), ("003", "c")] (fun _ => .ok ()) ["001"]
        none).ran =
      (getPending [("001", "a"), ("002", "b"), ("003", "c")] ["001"]).map Prod.fst) ∧
    ((migrateUp [("001", "a"), ("002", "b"), ("003", "c")] (fun _ => .ok ()) ["001"]
        none).ran.Pairwise (fun a b => pyLe a b = true)) ∧
    (migrateUp [("001", "a"), ("002", "b"), ("003", "c")] (fun _ => .ok ())
      (migrateUp [("001", "a"), ("002", "b"), ("003", "c")] (fun _ => .ok ()) ["001"]
        none).applied none).ran = []) :=
  ⟨by decide, C4_migrations_amended [("001", "a"), ("002", "b"), ("003", "c")] ["001"]
    (fun _ => .ok ()) (by decide) (fun _ => rfl)⟩

/-- A row of the `organizations` table, restricted to the columns the
hierarchy traversal reads: `id`, `parent_id`, `name`,
`hierarchy_level`. -/
structure OrgRow where
  id : Nat
  parent : Option Nat
  name : String
  level : Nat
deriving DecidableEq, Repr

/-- The `organizations` table state. -/
abbrev OrgTable := List OrgRow

/-- Insertion step of the sort modelling ORDER BY. -/
def insertByKey (le : OrgRow → OrgRow → Bool) (r : OrgRow) : List OrgRow → List OrgRow
  | [] => [r]
  | x :: xs => if le r x then r :: x :: xs else x :: insertByKey le r xs

/-- Insertion sort modelling a deterministic ORDER BY. -/
def sortByKey (le : OrgRow → OrgRow → Bool) : List OrgRow → List OrgRow
  | [] => []
  | x :: xs => insertByKey le x (sortByKey le xs)

/-- ORDER BY hierarchy_level (ancestors query). -/
def levelLe (a b : OrgRow) : Bool := decide (a.level ≤ b.level)

/-- ORDER BY hierarchy_level, name (descendants query). -/
def levelNameLe (a b : OrgRow) : Bool :=
  if a.level = b.level then pyLe a.name b.name else decide (a.level ≤ b.level)

/-- The upward joins of the ancestors CTE: from a parent pointer,
repeatedly join `o.id = a.parent_id` (id is the primary key, so the
lookup is by `find?`).  The fuel bounds the iteration; the chain
hypotheses of the theorems guarantee it suffices. -/
def climb (tbl : OrgTable) : Nat → Option Nat → List OrgRow
  | 0, _ => []
  | _, none => []
  | fuel + 1, some pid =>
    match tbl.find? (fun r => decide (r.id = pid)) with
    | none => []
    | some r => r :: climb tbl fuel r.parent

/-- `OrganizationModel.get_ancestors`: recursive CTE seeded with the
organization itself, joined up the parent links, final SELECT excluding
the organization (`WHERE id != %s`), ORDER BY hierarchy_level. -/
def get_ancestors (tbl : OrgTable) (orgId : Nat) : List OrgRow :=
  match tbl.find? (fun r => decide (r.id = orgId)) with
  | none => []
  | some org =>
    sortByKey levelLe
      ((org :: climb tbl tbl.length org.parent).filter (fun r => decide (¬ r.id = orgId)))

/-- The direct children of an organization (`WHERE parent_id = %s`). -/
def childrenOf (tbl : OrgTable) (pid : Nat) : List OrgRow :=
  tbl.filter (fun r => decide (r.parent = some pid))

/-- One recursive step of the descendants CTE: the children of every row
of the current frontier. -/
def nextFrontier (tbl : OrgTable) : List OrgRow → List OrgRow
  | [] => []
  | r :: rest => childrenOf tbl r.id ++ nextFrontier tbl rest

/-- The UNION ALL accumulation of the descendants CTE: the frontier plus
everything reachable below it, until the frontier empties (or the fuel
runs out — the fuel bounds the iteration like `climb`'s). -/
def descLevels (tbl : OrgTable) : Nat → List OrgRow → List OrgRow
  | 0, _ => []
  | fuel + 1, frontier =>
    if frontier = [] then []
    else frontier ++ descLevels tbl fuel (nextFrontier tbl frontier)

/-- `OrganizationModel.get_all_descendants`: recursive CTE seeded with
the direct children, ORDER BY hierarchy_level, name. -/
def get_all_descendants (tbl : OrgTable) (orgId : Nat) : List OrgRow :=
  sortByKey levelNameLe (descLevels tbl tbl.length (childrenOf tbl orgId))

theorem climb_none (tbl : OrgTable) : ∀ fuel, climb tbl fuel none = [] := by
  intro fuel
  cases fuel <;> rfl

theorem descLevels_nil (tbl : OrgTable) : ∀ fuel, descLevels tbl fuel [] = [] := by
  intro fuel
  cases fuel with
  | zero => rfl
  | succ f => simp [descLevels]

theorem find_id : ∀ (tbl : OrgTable) (r : OrgRow), (tbl.map (fun x => x.id)).Nodup →
    r ∈ tbl → tbl.find? (fun x => decide (x.id = r.id)) = some r := by
  intro tbl r
  induction tbl with
  | nil => intro _ h; exact absurd h (List.not_mem_nil _)
  | cons a rest ih =>
    intro hnd hm
    have hndc : (a.id :: rest.map (fun x => x.id)).Nodup := by simpa using hnd
    have hnd0 := List.nodup_cons.mp hndc
    rcases List.mem_cons.mp hm with rfl | hm2
    · rw [List.find?_cons_of_pos _ (by simp)]
    · have hne : ¬ a.id = r.id := fun h => hnd0.1 (h ▸ List.mem_map.mpr ⟨r, hm2, rfl⟩)
      rw [List.find?_cons_of_neg _ (by simpa using hne)]
      exact ih hnd0.2 hm2

theorem mem_insertByKey_self (le : OrgRow → OrgRow → Bool) (r : OrgRow) :
    ∀ l, r ∈ insertByKey le r l := by
  intro l
  induction l with
  | nil => exact List.mem_singleton_self r
  | cons x xs ih =>
    unfold insertByKey
    split
    · exact List.mem_cons_self r _
    · exact List.mem_cons_of_mem x ih

theorem mem_insertByKey_of_mem (le : OrgRow → OrgRow → Bool) (r x : OrgRow) :
    ∀ l, x ∈ l → x ∈ insertByKey le r l := by
  intro l
  induction l with
  | nil => intro h; exact absurd h (List.not_mem_nil _)
  | cons y ys ih =>
    intro h
    unfold insertByKey
    split
    · exact List.mem_cons_of_mem r h
    · rcases List.mem_cons.mp h with rfl | h2
      · exact List.mem_cons_self x _
      · exact List.mem_cons_of_mem y (ih h2)

theorem mem_sortByKey_of_mem (le : OrgRow → OrgRow → Bool) (x : OrgRow) :
    ∀ l, x ∈ l → x ∈ sortByKey le l := by
  intro l
  induction l with
  | nil => intro h; exact absurd h (List.not_mem_nil _)
  | cons y ys ih =>
    intro h
    rcases List.mem_cons.mp h with rfl | h2
    · exact mem_insertByKey_self le x (sortByKey le ys)
    · exact mem_insertByKey_of_mem le y x (sortByKey le ys) (ih h2)

theorem mem_nextFrontier (tbl : OrgTable) :
    ∀ (frontier : List OrgRow) (r r2 : OrgRow), r ∈ frontier →
      r2 ∈ childrenOf tbl r.id → r2 ∈ nextFrontier tbl frontier := by
  intro frontier
  induction frontier with
  | nil => intro r r2 h _; exact absurd h (List.not_mem_nil _)
  | cons a rest ih =>
    intro r r2 h hc
    rcases List.mem_cons.mp h with rfl | h2
    · exact List.mem_append_left _ hc
    · exact List.mem_append_right _ (ih r r2 h2 hc)

theorem mem_descLevels_frontier (tbl : OrgTable) (fuel : Nat) (frontier : List OrgRow)
    (r : OrgRow) (h : r ∈ frontier) : r ∈ descLevels tbl (fuel + 1) frontier := by
  unfold descLevels
  rw [if_neg (List.ne_nil_of_mem h)]
  exact List.mem_append_left _ h

theorem mem_descLevels_step (tbl : OrgTable) (fuel : Nat) (frontier : List OrgRow)
    (r : OrgRow) (hne : ¬ frontier = [])
    (h : r ∈ descLevels tbl fuel (nextFrontier tbl frontier)) :
    r ∈ descLevels tbl (fuel + 1) frontier := by
  unfold descLevels
  rw [if_neg hne]
  exact List.mem_append_right _ h

/-- C5: for a chain root→A→B→C stored with correct hierarchy levels in a
table with primary-key ids, `get_ancestors(C)` returns exactly
`[root, A, B]` root-first and excluding C itself, `get_all_descendants
(root)` includes A, B and C, and both operations return an empty list —
not an error — when the node has no relatives in that direction. -/
theorem C5_hierarchy_round_trip (tbl : OrgTable) (r0 rA rB rC : OrgRow)
    (hids : (tbl.map (fun r => r.id)).Nodup)
    (h0 : r0 ∈ tbl) (hA : rA ∈ tbl) (hB : rB ∈ tbl) (hC : rC ∈ tbl)
    (hp0 : r0.parent = none)
    (hpA : rA.parent = some r0.id)
    (hpB : rB.parent = some rA.id)
    (hpC : rC.parent = some rB.id)
    (hl0 : r0.level = 0) (hlA : rA.level = 1) (hlB : rB.level = 2) (hlC : rC.level = 3) :
    get_ancestors tbl rC.id = [r0, rA, rB] ∧
    rA ∈ get_all_descendants tbl r0.id ∧
    rB ∈ get_all_descendants tbl r0.id ∧
    rC ∈ get_all_descendants tbl r0.id ∧
    get_ancestors tbl r0.id = [] ∧
    (∀ i, (∀ r ∈ tbl, ¬ r.parent = some i) → get_all_descendants tbl i = []) := by
  have hinj := List.inj_on_of_nodup_map hids
  have hne0A : r0 ≠ rA := fun h => by rw [h] at hl0; omega
  have hne0B : r0 ≠ rB := fun h => by rw [h] at hl0; omega
  have hne0C : r0 ≠ rC := fun h => by rw [h] at hl0; omega
  have hneAB : rA ≠ rB := fun h => by rw [h] at hlA; omega
  have hneAC : rA ≠ rC := fun h => by rw [h] at hlA; omega
  have hneBC : rB ≠ rC := fun h => by rw [h] at hlB; omega
  have hid0C : ¬ r0.id = rC.id := fun h => hne0C (hinj h0 hC h)
  have hidAC : ¬ rA.id = rC.id := fun h => hneAC (hinj hA hC h)
  have hidBC : ¬ rB.id = rC.id := fun h => hneBC (hinj hB hC h)
  have hlen : 3 ≤ tbl.length := by
    have hnd4 : ([r0, rA, rB, rC] : List OrgRow).Nodup := by
      refine List.nodup_cons.mpr ⟨?_, List.nodup_cons.mpr ⟨?_,
        List.nodup_cons.mpr ⟨?_, List.nodup_singleton _⟩⟩⟩
      · simp [hne0A, hne0B, hne0C]
      · simp [hneAB, hneAC]
      · simp [hneBC]
    have hsub : ([r0, rA, rB, rC] : List OrgRow) ⊆ tbl := by
      intro x hx
      rcases List.mem_cons.mp hx with rfl | hx
      · exact h0
      rcases List.mem_cons.mp hx with rfl | hx
      · exact hA
      rcases List.mem_cons.mp hx with rfl | hx
      · exact hB
      rcases List.mem_singleton.mp hx with rfl
      exact hC
    have hle := (List.subperm_of_subset hnd4 hsub).length_le
    simp at hle
    omega
  obtain ⟨k, hk⟩ : ∃ k, tbl.length = (k + 2) + 1 := ⟨tbl.length - 3, by omega⟩
  have hfindC := find_id tbl rC hids hC
  have hfindB := find_id tbl rB hids hB
  have hfindA := find_id tbl rA hids hA
  have hfind0 := find_id tbl r0 hids h0
  have hclimb : climb tbl tbl.length rC.parent = [rB, rA, r0] := by
    rw [hpC, hk]
    show climb tbl ((k + 2) + 1) (some rB.id) = [rB, rA, r0]
    unfold climb
    rw [hfindB]
    show rB :: climb tbl (k + 2) rB.parent = [rB, rA, r0]
    rw [hpB]
    show rB :: climb tbl ((k + 1) + 1) (some rA.id) = [rB, rA, r0]
    unfold climb
    rw [hfindA]
    show rB :: rA :: climb tbl (k + 1) rA.parent = [rB, rA, r0]
    rw [hpA]
    show rB :: rA :: climb tbl (k + 1) (some r0.id) = [rB, rA, r0]
    unfold climb
    rw [hfind0]
    show rB :: rA :: r0 :: climb tbl k r0.parent = [rB, rA, r0]
    rw [hp0, climb_none]
  refine ⟨?_, ?_, ?_, ?_, ?_, ?_⟩
  · unfold get_ancestors
    rw [hfindC]
    show sortByKey levelLe (List.filter (fun r => decide (¬ r.id = rC.id))
      (rC :: climb tbl tbl.length rC.parent)) = [r0, rA, rB]
    rw [hclimb]
    have hfil : List.filter (fun r => decide (¬ r.id = rC.id)) [rC, rB, rA, r0] =
        [rB, rA, r0] := by
      simp [List.filter_cons, hid0C, hidAC, hidBC]
    rw [hfil]
    simp [sortByKey, insertByKey, levelLe, hl0, hlA, hlB]
  · have hA1 : rA ∈ childrenOf tbl r0.id := List.mem_filter.mpr ⟨hA, by simp [hpA]⟩
    rw [show get_all_descendants tbl r0.id = sortByKey levelNameLe
      (descLevels tbl ((k + 2) + 1) (childrenOf tbl r0.id)) by rw [← hk]; rfl]
    exact mem_sortByKey_of_mem _ _ _ (mem_descLevels_frontier tbl (k + 2) _ rA hA1)
  · have hA1 : rA ∈ childrenOf tbl r0.id := List.mem_filter.mpr ⟨hA, by simp [hpA]⟩
    have hB2 : rB ∈ nextFrontier tbl (childrenOf tbl r0.id) :=
      mem_nextFrontier tbl _ rA rB hA1 (List.mem_filter.mpr ⟨hB, by simp [hpB]⟩)
    rw [show get_all_descendants tbl r0.id = sortByKey levelNameLe
      (descLevels tbl ((k + 2) + 1) (childrenOf tbl r0.id)) by rw [← hk]; rfl]
    exact mem_sortByKey_of_mem _ _ _
      (mem_descLevels_step tbl (k + 2) _ rB (List.ne_nil_of_mem hA1)
        (mem_descLevels_frontier tbl (k + 1) _ rB hB2))
  · have hA1 : rA ∈ childrenOf tbl r0.id := List.mem_filter.mpr ⟨hA, by simp [hpA]⟩
    have hB2 : rB ∈ nextFrontier tbl (childrenOf tbl r0.id) :=
      mem_nextFrontier tbl _ rA rB hA1 (List.mem_filter.mpr ⟨hB, by simp [hpB]⟩)
    have hC3 : rC ∈ nextFrontier tbl (nextFrontier tbl (childrenOf tbl r0.id)) :=
      mem_nextFrontier tbl _ rB rC hB2 (List.mem_filter.mpr ⟨hC, by simp [hpC]⟩)
    rw [show get_all_descendants tbl r0.id = sortByKey levelNameLe
      (descLevels tbl ((k + 2) + 1) (childrenOf tbl r0.id)) by rw [← hk]; rfl]
    exact mem_sortByKey_of_mem _ _ _
      (mem_descLevels_step tbl (k + 2) _ rC (List.ne_nil_of_mem hA1)
        (mem_descLevels_step tbl (k + 1) _ rC (List.ne_nil_of_mem hB2)
          (mem_descLevels_frontier tbl k _ rC hC3)))
  · unfold get_ancestors
    rw [hfind0]
    show sortByKey levelLe (List.filter (fun r => decide (¬ r.id = r0.id))
      (r0 :: climb tbl tbl.length r0.parent)) = []
    rw [hp0, climb_none]
    simp [List.filter_cons, sortByKey]
  · intro i hno
    have hch : childrenOf tbl i = [] := by
      apply List.filter_eq_nil_iff.mpr
      intro r hr
      simpa using hno r hr
    unfold get_all_descendants
    rw [hch, descLevels_nil]
    rfl

/-- A concrete four-row chain root→A→B→C with correct levels. -/
def c5tbl : OrgTable :=
  [⟨1, none, "root", 0⟩, ⟨2, some 1, "a", 1⟩, ⟨3, some 2, "b", 2⟩, ⟨4, some 3, "c", 3⟩]

/-- C5 witness: the round-trip theorem instantiated at the concrete
chain. -/
theorem C5_hierarchy_round_trip_witness :
    (c5tbl.map (fun r => r.id)).Nodup ∧
    (get_ancestors c5tbl 4 =
      [⟨1, none, "root", 0⟩, ⟨2, some 1, "a", 1⟩, ⟨3, some 2, "b", 2⟩] ∧
    (⟨2, some 1, "a", 1⟩ : OrgRow) ∈ get_all_descendants c5tbl 1 ∧
    (⟨3, some 2, "b", 2⟩ : OrgRow) ∈ get_all_descendants c5tbl 1 ∧
    (⟨4, some 3, "c", 3⟩ : OrgRow) ∈ get_all_descendants c5tbl 1 ∧
    get_ancestors c5tbl 1 = [] ∧
    (∀ i, (∀ r ∈ c5tbl, ¬ r.parent = some i) → get_all_descendants c5tbl i = [])) :=
  ⟨by decide,
    C5_hierarchy_round_trip c5tbl ⟨1, none, "root", 0⟩ ⟨2, some 1, "a", 1⟩
      ⟨3, some 2, "b", 2⟩ ⟨4, some 3, "c", 3⟩ (by decide) (by decide) (by decide)
      (by decide) (by decide) rfl rfl rfl rfl rfl rfl rfl rfl⟩

/-- Outcome of a single `psycopg.connect` call. -/
inductive ConnOutcome where
  | success
  | opError (msg : String)
  | otherError
deriving DecidableEq, Repr

/-- What one attempt passed to `psycopg.connect`: whether the
DATABASE_URL was supplied as conninfo, and the `connect_timeout` if
any. -/
structure Attempt where
  usesUrl : Bool
  timeout : Option Nat
deriving DecidableEq, Repr

/-- The observable result of `wait_for_neon_database`: the sequence of
connect attempts with their parameters, and the returned
`(success, message)` pair. -/
structure NeonResult where
  attempts : List Attempt
  success : Bool
  message : String
deriving DecidableEq, Repr

/-- Does the first list start with the second? -/
def leadsWith : List Char → List Char → Bool
  | _, [] => true
  | [], _ :: _ => false
  | a :: as, b :: bs => decide (a = b) && leadsWith as bs

/-- Python `needle in hay` on the underlying characters. -/
def hasSubList (needle : List Char) : List Char → Bool
  | [] => leadsWith [] needle
  | c :: rest => leadsWith (c :: rest) needle || hasSubList needle rest

/-- Python `needle in hay` for strings. -/
def pyContains (hay needle : String) : Bool := hasSubList needle.data hay.data

/-- Drop leading ASCII whitespace. -/
def dropLeadingWs : List Char → List Char
  | [] => []
  | c :: rest =>
    if c = ' ' ∨ c = '\t' ∨ c = '\n' ∨ c = '\r' then dropLeadingWs rest else c :: rest

/-- Python `str.strip()` (ASCII whitespace). -/
def pyStrip (s : String) : String :=
  ⟨(dropLeadingWs ((dropLeadingWs s.data).reverse)).reverse⟩

/-- Python `str.lower()` restricted to ASCII letters (the psycopg error
messages classified by the code are ASCII). -/
def pyCharLower (c : Char) : Char :=
  if 'A' ≤ c ∧ c ≤ 'Z' then Char.ofNat (c.toNat + 32) else c

/-- Python `str.lower()` on strings. -/
def pyLower (s : String) : String := ⟨s.data.map pyCharLower⟩

/-- The final failure message of `wait_for_neon_database`. -/
def neonFailMessage (maxRetries : Nat) : String :=
  "Failed to connect after " ++ toString maxRetries ++ " attempts. Possible causes:\n" ++
  "1. Neon database is not active (check Neon dashboard)\n" ++
  "2. Network connectivity issue (firewall/proxy)\n" ++
  "3. Invalid DATABASE_URL credentials\n" ++
  "4. Neon compute is experiencing issues"

/-- The retry loop of `wait_for_neon_database` (utils.py lines 79-129):
loop index `i` runs from 1 to `max_retries - 1` (the fuel); each retry
passes the URL and `connect_timeout = min(20 + (i-1)*5, 45)`; a DNS or
authentication `OperationalError` returns immediately, every other
failure continues. -/
def neonLoop (outcome : Nat → ConnOutcome) (maxRetries : Nat) :
    Nat → Nat → List Attempt → NeonResult
  | 0, _, acc => ⟨acc, false, neonFailMessage maxRetries⟩
  | fuel + 1, i, acc =>
    let att : Attempt := ⟨true, some (min (20 + (i - 1) * 5) 45)⟩
    match outcome (i + 1) with
    | .success => ⟨acc ++ [att], true, "Connected successfully"⟩
    | .opError msg =>
      let m := pyLower (pyStrip msg)
      if pyContains m "could not translate host name" then
        ⟨acc ++ [att], false, "DNS error: " ++ pyStrip msg⟩
      else if pyContains m "authentication failed" then
        ⟨acc ++ [att], false, "Auth error: " ++ pyStrip msg⟩
      else neonLoop outcome maxRetries fuel (i + 1) (acc ++ [att])
    | .otherError => neonLoop outcome maxRetries fuel (i + 1) (acc ++ [att])

/-- `wait_for_neon_database(database_url)` with the default
`max_retries = 10`, the connect outcomes supplied by the oracle
(`outcome n` is the result of the n-th `psycopg.connect` call).  The
FIRST attempt calls `psycopg.connect()` with no arguments at all —
neither the URL nor the long `initial_timeout` that the docstring and
the log line promise are ever passed (utils.py lines 61-63) — and any
failure of it, DNS and auth included, falls through to the retry
loop unclassified. -/
def waitForNeonDatabase (databaseUrl : String) (outcome : Nat → ConnOutcome)
    (maxRetries : Nat := 10) : NeonResult :=
  if databaseUrl = "" then ⟨[], false, "DATABASE_URL not provided"⟩
  else
    match outcome 1 with
    | .success => ⟨[⟨false, none⟩], true, "Connected successfully"⟩
    | _ => neonLoop outcome maxRetries (maxRetries - 1) 1 [⟨false, none⟩]

/-- A connect oracle whose every attempt fails with a DNS resolution
error. -/
def c7oracle : Nat → ConnOutcome := fun _ => .opError "could not translate host name"

/-- C7 (code bug): with a DNS-failing host, the run records TWO connect
attempts — the first passes no conninfo and no timeout (the documented
60-second first-attempt timeout is never used), and the DNS failure of
the first attempt IS retried once before being classified — so neither
"uses a long timeout on the first attempt" nor "never retries DNS
failures" holds of the code. -/
theorem C7_first_attempt_bug :
    waitForNeonDatabase "postgresql://user@host/db" c7oracle 10 =
      ⟨[⟨false, none⟩, ⟨true, some 20⟩], false,
        "DNS error: could not translate host name"⟩ ∧
    (waitForNeonDatabase "postgresql://user@host/db" c7oracle 10).attempts.length = 2 ∧
    (waitForNeonDatabase "postgresql://user@host/db" c7oracle 10).attempts.head? =
      some ⟨false, none⟩ := by
  refine ⟨?_, ?_, ?_⟩ <;> rfl
